import Mathlib

/-!
Verification of the job-orchestration core of the thu-wuan-ao backend.

The definitions below are a shallow embedding of the Python sources:
  * `src/backend/queue_manager.py`  (ProcessingQueue and heapq operations)
  * `src/backend/worker_manager.py` (WorkerManager)
  * `src/backend/redis_manager.py`  (rate limiting)
  * `src/backend/websocket_manager.py` (ConnectionManager)

Machine details are modelled as follows: `datetime.now()` timestamps are
abstract `Nat` tick values supplied by the caller; floats are `ℚ`; Python
exceptions are `Except`/`Option` results paired with the (unchanged) state;
Python dicts are association lists with first-match lookup.
-/

namespace ThuWuanAo

/-- Job priority levels, from `queue_manager.JobPriority` (LOW=3, NORMAL=2,
HIGH=1, URGENT=0). -/
inductive JobPriority where
  | urgent
  | high
  | normal
  | low
deriving DecidableEq, Inhabited

/-- The numeric `.value` of a `JobPriority` member. -/
def JobPriority.val : JobPriority → Nat
  | .urgent => 0
  | .high => 1
  | .normal => 2
  | .low => 3

/-- Job lifecycle states, from `queue_manager.JobStatus`. -/
inductive JobStatus where
  | queued
  | processing
  | completed
  | failed
  | cancelled
deriving DecidableEq, Inhabited

/-- A voice conversion job, from `queue_manager.ProcessingJob`.  The
`metadata` bag is opaque string pairs. -/
structure ProcessingJob where
  id : String
  priority : JobPriority
  status : JobStatus
  createdAt : Nat
  startedAt : Option Nat := none
  completedAt : Option Nat := none
  progress : ℚ := 0
  message : String := ""
  error : Option String := none
  metadata : List (String × String) := []
deriving DecidableEq, Inhabited

/-- A heap entry.  Python's heap stores `ProcessingJob` objects by reference;
only the immutable fields `priority.value` and `created_at` take part in
`__lt__` comparisons, and mutable state (status and the rest) is read through
the `_jobs` dict, which holds the same object.  We therefore store the two
comparison keys together with the job id and route every status read through
the jobs map. -/
structure Entry where
  prio : Nat
  ts : Nat
  id : String
deriving DecidableEq, Inhabited

/-- `ProcessingJob.__lt__`: compare priority values, ties broken by
`created_at`. -/
def entryLT (a b : Entry) : Prop :=
  a.prio < b.prio ∨ (a.prio = b.prio ∧ a.ts < b.ts)

instance (a b : Entry) : Decidable (entryLT a b) := by
  unfold entryLT; exact inferInstance

/-- The non-strict order induced by `entryLT` (total preorder). -/
def entryLE (a b : Entry) : Prop := ¬ entryLT b a

instance (a b : Entry) : Decidable (entryLE a b) := by
  unfold entryLE; exact inferInstance

/-- `heapq._siftdown(heap, startpos, pos)` from CPython, with the moving
`newitem` passed explicitly (CPython reads it from `heap[pos]` on entry):
bubble the item at the hole `pos` up towards `startpos`, moving parents
down while `newitem` compares less. -/
def siftdownLoop (newitem : Entry) (startpos : Nat) (l : List Entry) (pos : Nat) :
    List Entry :=
  if _h : startpos < pos then
    if entryLT newitem (l.getD ((pos - 1) / 2) default) then
      siftdownLoop newitem startpos
        (l.set pos (l.getD ((pos - 1) / 2) default)) ((pos - 1) / 2)
    else l.set pos newitem
  else l.set pos newitem
termination_by pos
decreasing_by omega

/-- `heapq.heappush`: append, then sift down from the new slot. -/
def heappush (l : List Entry) (item : Entry) : List Entry :=
  siftdownLoop item 0 (l ++ [item]) l.length

/-- The loop of `heapq._siftup`: move the hole at `pos` down to a leaf,
always pulling up the smaller child (the right child when
`not heap[childpos] < heap[rightpos]`).  Returns the final array and the
leaf position of the hole. -/
def siftupLoop (endpos : Nat) (l : List Entry) (pos : Nat) : List Entry × Nat :=
  if _h : 2 * pos + 1 < endpos then
    if _h2 : 2 * pos + 2 < endpos ∧
        ¬ entryLT (l.getD (2 * pos + 1) default) (l.getD (2 * pos + 2) default) then
      siftupLoop endpos (l.set pos (l.getD (2 * pos + 2) default)) (2 * pos + 2)
    else
      siftupLoop endpos (l.set pos (l.getD (2 * pos + 1) default)) (2 * pos + 1)
  else (l, pos)
termination_by endpos - pos
decreasing_by
  all_goals omega

/-- `heapq._siftup(heap, pos)`: move the hole to a leaf, place `newitem`
there, then bubble it back up with `_siftdown`. -/
def siftup (l : List Entry) (pos : Nat) : List Entry :=
  let newitem := l.getD pos default
  let r := siftupLoop l.length l pos
  siftdownLoop newitem pos (r.1.set r.2 newitem) r.2

/-- `heapq.heappop`: pop the last element; if the heap is still nonempty,
move it to the root and sift up; returns the old root. -/
def heappop (l : List Entry) : Option (Entry × List Entry) :=
  match l with
  | [] => none
  | x :: xs =>
    let lastelt := (x :: xs).getLast (List.cons_ne_nil x xs)
    let rest := (x :: xs).dropLast
    if rest.isEmpty then some (lastelt, [])
    else some (rest.getD 0 default, siftup (rest.set 0 lastelt) 0)

/-- The binary min-heap invariant of `heapq`: no element compares less than
its parent. -/
def isHeap (l : List Entry) : Prop :=
  ∀ i, 0 < i → i < l.length →
    ¬ entryLT (l.getD i default) (l.getD ((i - 1) / 2) default)

/-- Python dict assignment `d[k] = v` on an association list: replace the
value if the key exists, else append the pair. -/
def dictSet {β : Type} (k : String) (v : β) (l : List (String × β)) :
    List (String × β) :=
  if (l.lookup k).isSome then l.map (fun p => if p.1 = k then (p.1, v) else p)
  else l ++ [(k, v)]

/-- Error taxonomy of `ProcessingQueue.add_job`: `RuntimeError("queue is
full")` and `ValueError("already exists")`. -/
inductive AddError where
  | queueFull
  | duplicateJob
deriving DecidableEq

/-- The `ProcessingQueue` state: `_queue` is the heap array of entries and
`_jobs` the id-keyed dict of job records (the authoritative view of each
job's mutable fields, shared by reference with the heap in Python). -/
structure ProcessingQueue where
  maxWorkers : Nat := 2
  maxQueueSize : Nat := 100
  queue : List Entry := []
  jobs : List (String × ProcessingJob) := []
deriving DecidableEq

/-- A fresh queue with the given `max_workers` and `max_queue_size`
constructor arguments. -/
def emptyQueue (w q : Nat) : ProcessingQueue :=
  { maxWorkers := w, maxQueueSize := q, queue := [], jobs := [] }

/-- `ProcessingQueue.add_job`: reject when the heap length is at capacity,
then when the id is already known; otherwise record the job as `queued` and
push it.  The returned state is unchanged on error (Python raises before
mutating). -/
def addJob (s : ProcessingQueue) (jobId : String) (priority : JobPriority)
    (metadata : List (String × String)) (now : Nat) :
    Except AddError ProcessingJob × ProcessingQueue :=
  if s.maxQueueSize ≤ s.queue.length then (.error .queueFull, s)
  else if (s.jobs.lookup jobId).isSome then (.error .duplicateJob, s)
  else
    let job : ProcessingJob :=
      { id := jobId, priority := priority, status := .queued,
        createdAt := now, metadata := metadata }
    (.ok job,
      { s with jobs := dictSet jobId job s.jobs,
               queue := heappush s.queue ⟨priority.val, now, jobId⟩ })

/-- `ProcessingQueue.get_job`. -/
def getJob (s : ProcessingQueue) (jobId : String) : Option ProcessingJob :=
  s.jobs.lookup jobId

/-- The status of a job id in the queue's job map, if known. -/
def statusOf (s : ProcessingQueue) (jobId : String) : Option JobStatus :=
  (s.jobs.lookup jobId).map (fun j => j.status)

/-- Membership test `status in [COMPLETED, FAILED, CANCELLED]` used by
`cancel_job` and `cleanup_old_jobs`. -/
def isTerminal (st : JobStatus) : Bool :=
  st == .completed || st == .failed || st == .cancelled

/-- `ProcessingQueue.cancel_job`: failure (no mutation) when the job is
absent or already terminal; otherwise mark it cancelled with a completion
timestamp.  The heap entry is left in place (lazy deletion). -/
def cancelJob (s : ProcessingQueue) (jobId : String) (now : Nat) :
    Bool × ProcessingQueue :=
  match s.jobs.lookup jobId with
  | none => (false, s)
  | some job =>
    if isTerminal job.status then (false, s)
    else
      let job2 : ProcessingJob :=
        { job with status := .cancelled,
                   message := "Job cancelled by user",
                   completedAt := some now }
      (true, { s with jobs := dictSet jobId job2 s.jobs })

/-- `ProcessingQueue.update_job_progress`: unguarded mutation of progress
(and message when non-empty) for an existing job; no-op when absent. -/
def updateJobProgress (s : ProcessingQueue) (jobId : String) (progress : ℚ)
    (message : String) : ProcessingQueue :=
  match s.jobs.lookup jobId with
  | none => s
  | some job =>
    let job2 : ProcessingJob :=
      { job with progress := progress,
                 message := if message = "" then job.message else message }
    { s with jobs := dictSet jobId job2 s.jobs }

/-- `ProcessingQueue.complete_job`: unguarded; sets status `completed`,
progress 100, message, and a fresh completion timestamp for any existing
job. -/
def completeJob (s : ProcessingQueue) (jobId : String) (message : String)
    (now : Nat) : ProcessingQueue :=
  match s.jobs.lookup jobId with
  | none => s
  | some job =>
    let job2 : ProcessingJob :=
      { job with status := .completed, progress := 100,
                 message := message, completedAt := some now }
    { s with jobs := dictSet jobId job2 s.jobs }

/-- `ProcessingQueue.fail_job`: unguarded; sets status `failed`, the error,
and a fresh completion timestamp for any existing job. -/
def failJob (s : ProcessingQueue) (jobId : String) (error : String)
    (now : Nat) : ProcessingQueue :=
  match s.jobs.lookup jobId with
  | none => s
  | some job =>
    let job2 : ProcessingJob :=
      { job with status := .failed, error := some error,
                 message := "Job failed: " ++ error,
                 completedAt := some now }
    { s with jobs := dictSet jobId job2 s.jobs }

/-- The pop-scan loop of `ProcessingQueue._get_next_job`, with fuel (one
unit per heap pop; `queue.length` always suffices).  Cancelled entries are
discarded; the first non-cancelled job is marked `processing` with a start
timestamp and returned.  An entry whose id is missing from the job map is
also skipped: in Python the popped object itself still carries its status,
and the only jobs removed from `_jobs` while their entry is still heaped
are terminal (cancelled) ones, which the scan skips anyway. -/
def getNextJobAux (now : Nat) : Nat → ProcessingQueue →
    Option ProcessingJob × ProcessingQueue
  | 0, s => (none, s)
  | fuel + 1, s =>
    match heappop s.queue with
    | none => (none, s)
    | some (e, rest) =>
      let s1 : ProcessingQueue := { s with queue := rest }
      match s1.jobs.lookup e.id with
      | none => getNextJobAux now fuel s1
      | some job =>
        if job.status = .cancelled then getNextJobAux now fuel s1
        else
          let job1 : ProcessingJob :=
            { job with status := .processing, startedAt := some now,
                       message := "Processing started" }
          (some job1, { s1 with jobs := dictSet e.id job1 s1.jobs })

/-- `ProcessingQueue._get_next_job`. -/
def getNextJob (s : ProcessingQueue) (now : Nat) :
    Option ProcessingJob × ProcessingQueue :=
  getNextJobAux now s.queue.length s

/-- The jobs returned by `k` successive `_get_next_job` calls (stopping at
the first empty result). -/
def drainJobs (now : Nat) : Nat → ProcessingQueue → List ProcessingJob
  | 0, _ => []
  | k + 1, s =>
    match getNextJob s now with
    | (none, _) => []
    | (some j, s1) => j :: drainJobs now k s1

/-- The `jobs_ahead` scan of `ProcessingQueue.estimate_wait_time`: walk the
heap's internal list order, stop at the job's own entry, count entries with
priority value ≤ `p`. -/
def scanAhead (jobId : String) (p : Nat) : List Entry → Nat
  | [] => 0
  | e :: rest =>
    if e.id = jobId then 0
    else (if e.prio ≤ p then 1 else 0) + scanAhead jobId p rest

/-- `ProcessingQueue.estimate_wait_time`: `None` for absent or non-queued
jobs, else `(jobs_ahead / max_workers) * 60.0`. -/
def estimateWaitTime (s : ProcessingQueue) (jobId : String) : Option ℚ :=
  match s.jobs.lookup jobId with
  | none => none
  | some job =>
    if job.status ≠ .queued then none
    else some ((scanAhead jobId job.priority.val s.queue : ℚ) /
      (s.maxWorkers : ℚ) * 60)

/-- Following the spec's words for `estimate_wait` (not the code): `K` is
the number of still-queued jobs with priority ≤ the job's priority that are
ahead of it in queue (dequeue) order, i.e. strictly before it under the
heap comparison. -/
def specJobsAhead (s : ProcessingQueue) (jobId : String) : Nat :=
  match s.jobs.lookup jobId with
  | none => 0
  | some job =>
    (s.queue.filter (fun e =>
      decide (statusOf s e.id = some .queued ∧ e.prio ≤ job.priority.val ∧
        entryLT e ⟨job.priority.val, job.createdAt, jobId⟩))).length

/-- Following the spec's words for `estimate_wait` (not the code): the
formula `(K / W) * avg_processing_time` with `K = specJobsAhead`. -/
def specEstimateWait (s : ProcessingQueue) (jobId : String) : Option ℚ :=
  match s.jobs.lookup jobId with
  | none => none
  | some job =>
    if job.status ≠ .queued then none
    else some ((specJobsAhead s jobId : ℚ) / (s.maxWorkers : ℚ) * 60)

/-- The `WorkerManager` pool state that the claims depend on: the worker
count and the running flag (`is_running`). -/
structure WorkerManager where
  maxWorkers : Nat
  isRunning : Bool
deriving DecidableEq

/-- `WorkerManager._calculate_optimal_workers`:
`min(max(1, cpu_count - 1), max(1, int(memory_gb // 2)), 8)`. -/
def calculateOptimalWorkers (cpuCount : Nat) (memoryGb : ℚ) : Nat :=
  min (min (max 1 (cpuCount - 1)) (max 1 (Int.toNat ⌊memoryGb / 2⌋))) 8

/-- `WorkerManager.__init__`: `max_workers or _calculate_optimal_workers()`
(Python `or` also falls through on the falsy value 0). -/
def WorkerManager.init (maxWorkersArg : Option Nat) (cpuCount : Nat)
    (memoryGb : ℚ) : WorkerManager :=
  { maxWorkers :=
      match maxWorkersArg with
      | some n => if n = 0 then calculateOptimalWorkers cpuCount memoryGb else n
      | none => calculateOptimalWorkers cpuCount memoryGb,
    isRunning := false }

/-- The `ValueError` of `WorkerManager.scale_workers`. -/
inductive ScaleError where
  | invalidRange
deriving DecidableEq

/-- `WorkerManager.scale_workers`: silent no-op when the requested count
equals the current one; `ValueError` (state unchanged) outside `[1, 16]`;
otherwise stop, set the count, restart.  The first component is the raised
error, if any. -/
def scaleWorkers (m : WorkerManager) (n : Nat) :
    Option ScaleError × WorkerManager :=
  if n = m.maxWorkers then (none, m)
  else if n < 1 ∨ 16 < n then (some .invalidRange, m)
  else (none, { maxWorkers := n, isRunning := true })

/-- `RedisManager.check_rate_limit` on a single key: the store value is
`none` (key absent/expired) or `some (count, ttl)`.  `storeError` models any
Redis exception, on which the check fails open.  First request sets the
count to 1 with TTL = window; a request with count ≥ limit is rejected
without incrementing; otherwise the count is incremented (TTL untouched). -/
def checkRateLimit (storeError : Bool) (st : Option (Nat × Nat))
    (limit window : Nat) : Bool × Option (Nat × Nat) :=
  if storeError then (true, st)
  else
    match st with
    | none => (true, some (1, window))
    | some (c, t) => if limit ≤ c then (false, some (c, t)) else (true, some (c + 1, t))

/-- The store state after `k` error-free rate-limit checks inside one
still-active window, starting from an absent key. -/
def rlRun (limit window : Nat) : Nat → Option (Nat × Nat)
  | 0 => none
  | k + 1 => (checkRateLimit false (rlRun limit window k) limit window).2

/-- Add to a Python set, modelled as a duplicate-free list. -/
def setAdd (x : String) (l : List String) : List String :=
  if x ∈ l then l else l ++ [x]

/-- `set.discard`. -/
def setDiscard (x : String) (l : List String) : List String :=
  l.filter (fun y => y ≠ x)

/-- The `ConnectionManager` state: active connections and metadata are
modelled by their key sets (the socket objects and timestamps play no part
in the claims), `job_subscriptions` maps job id → subscriber sessions and
`session_jobs` maps session id → subscribed jobs. -/
structure ConnectionManager where
  activeConnections : List String
  jobSubscriptions : List (String × List String)
  sessionJobs : List (String × List String)
  connectionMetadata : List String
deriving DecidableEq

/-- The empty `ConnectionManager`. -/
def emptyConn : ConnectionManager := ⟨[], [], [], []⟩

/-- `ConnectionManager.connect`: register the connection, reset the
session's job set to empty, record metadata. -/
def connect (st : ConnectionManager) (sid : String) : ConnectionManager :=
  { activeConnections := setAdd sid st.activeConnections,
    jobSubscriptions := st.jobSubscriptions,
    sessionJobs := dictSet sid [] st.sessionJobs,
    connectionMetadata := setAdd sid st.connectionMetadata }

/-- The subscriber set of a job (empty when the job has no entry). -/
def subsOfJob (st : ConnectionManager) (jobId : String) : List String :=
  (st.jobSubscriptions.lookup jobId).getD []

/-- The job set of a session (empty when the session has no entry). -/
def jobsOfSession (st : ConnectionManager) (sid : String) : List String :=
  (st.sessionJobs.lookup sid).getD []

/-- The per-job half of `ConnectionManager.disconnect`'s cleanup loop, and
the `job_subscriptions` half of `unsubscribe_from_job`: discard the session
from the job's subscriber set and delete the entry when it became empty. -/
def removeSubscription (sid : String) (subs : List (String × List String))
    (jobId : String) : List (String × List String) :=
  match subs.lookup jobId with
  | none => subs
  | some ss =>
    let ss2 := setDiscard sid ss
    if ss2 = [] then subs.filter (fun p => p.1 ≠ jobId)
    else subs.map (fun p => if p.1 = jobId then (p.1, ss2) else p)

/-- `ConnectionManager.disconnect`: drop the connection, discard the session
from the subscriber set of each job it was subscribed to (deleting sets that
became empty), then drop its `session_jobs` and metadata entries. -/
def disconnect (st : ConnectionManager) (sid : String) : ConnectionManager :=
  { activeConnections := st.activeConnections.filter (fun y => y ≠ sid),
    jobSubscriptions :=
      match st.sessionJobs.lookup sid with
      | none => st.jobSubscriptions
      | some jids => jids.foldl (removeSubscription sid) st.jobSubscriptions,
    sessionJobs := st.sessionJobs.filter (fun p => p.1 ≠ sid),
    connectionMetadata := st.connectionMetadata.filter (fun y => y ≠ sid) }

/-- `ConnectionManager.send_to_session` reaches the socket iff the session
is an active connection (a live transport is assumed reliable; the
exception path is the dead-connection case). -/
def sendToSession (st : ConnectionManager) (sid : String) : Bool :=
  decide (sid ∈ st.activeConnections)

/-- `ConnectionManager.subscribe_to_job`: refused for inactive sessions;
otherwise add the session to the job's subscriber set and the job to the
session's job set (the session's entry exists whenever it is connected). -/
def subscribeToJob (st : ConnectionManager) (sid jobId : String) :
    Bool × ConnectionManager :=
  if sid ∈ st.activeConnections then
    (true,
      { st with
        jobSubscriptions :=
          dictSet jobId (setAdd sid (subsOfJob st jobId)) st.jobSubscriptions,
        sessionJobs :=
          st.sessionJobs.map
            (fun p => if p.1 = sid then (p.1, setAdd jobId p.2) else p) })
  else (false, st)

/-- `ConnectionManager.unsubscribe_from_job`. -/
def unsubscribeFromJob (st : ConnectionManager) (sid jobId : String) :
    ConnectionManager :=
  { st with
    jobSubscriptions := removeSubscription sid st.jobSubscriptions jobId,
    sessionJobs :=
      st.sessionJobs.map
        (fun p => if p.1 = sid then (p.1, setDiscard jobId p.2) else p) }

/-- `ConnectionManager.notify_job_update`: send to every current subscriber;
sessions whose send fails (dead connections) are pruned from the job's
subscription afterwards.  Returns the sessions the message reached. -/
def notifyJobUpdate (st : ConnectionManager) (jobId : String) :
    List String × ConnectionManager :=
  match st.jobSubscriptions.lookup jobId with
  | none => ([], st)
  | some subs =>
    let delivered := subs.filter (fun sid => sendToSession st sid)
    let failed := subs.filter (fun sid => ¬ sendToSession st sid)
    (delivered, failed.foldl (fun acc sid => unsubscribeFromJob acc sid jobId) st)

/-- The bidirectional-index invariant maintained by the manager: every
recorded subscriber set is non-empty, and each of its sessions lists the
job among its own subscriptions. -/
def connInvariant (st : ConnectionManager) : Prop :=
  ∀ p ∈ st.jobSubscriptions,
    p.2 ≠ [] ∧ ∀ sid ∈ p.2, p.1 ∈ jobsOfSession st sid

instance (st : ConnectionManager) : Decidable (connInvariant st) := by
  unfold connInvariant; exact inferInstance

/-- Fold a sequence of `add_job` calls (id, priority, enqueue tick) over a
queue state. -/
def addAll (s : ProcessingQueue) (adds : List (String × JobPriority × Nat)) :
    ProcessingQueue :=
  adds.foldl (fun acc t => (addJob acc t.1 t.2.1 [] t.2.2).2) s

/-- The state invariant of a queue whose pending jobs are all still queued:
the heap array satisfies the `heapq` invariant, entry ids are distinct, and
every entry's id resolves to a `queued` job record carrying the entry's
comparison keys.  It holds after any sequence of successful `add_job` calls
with distinct ids and is preserved by `_get_next_job`. -/
def queueInv (s : ProcessingQueue) : Prop :=
  isHeap s.queue ∧ (s.queue.map Entry.id).Nodup ∧
  ∀ e ∈ s.queue, ∃ job, s.jobs.lookup e.id = some job ∧
    job.status = .queued ∧ job.priority.val = e.prio ∧ job.createdAt = e.ts

/-- Concrete three-job queue for the `estimate_wait_time` analysis: NORMAL
at tick 0, URGENT at tick 1, HIGH at tick 2 (heap list order becomes
`[jB, jA, jC]` while dequeue order is `jB, jC, jA`). -/
def exQueueC5 : ProcessingQueue :=
  (addJob ((addJob ((addJob (emptyQueue 2 100) "jA" .normal [] 0).2)
    "jB" .urgent [] 1).2) "jC" .high [] 2).2

/-- Concrete queue holding one cancelled job `j1`. -/
def exQueueCancelled : ProcessingQueue :=
  (cancelJob ((addJob (emptyQueue 2 100) "j1" .normal [] 0).2) "j1" 1).2

/-- Concrete capacity-1 queue holding one cancelled-but-still-heaped job. -/
def exQueueC10 : ProcessingQueue :=
  (cancelJob ((addJob (emptyQueue 2 1) "j1" .normal [] 0).2) "j1" 1).2

/-- Concrete capacity-2 queue after two successful `add_job` calls. -/
def exQueueC4 : ProcessingQueue :=
  (addJob ((addJob (emptyQueue 2 2) "j1" .normal [] 0).2) "j2" .normal [] 1).2

/-- Concrete connection manager: session `s1` connected and subscribed to
job `j3`. -/
def exConn : ConnectionManager :=
  (subscribeToJob (connect emptyConn "s1") "s1" "j3").2

theorem entryLT_irrefl (a : Entry) : ¬ entryLT a a := by
  unfold entryLT; omega

theorem entryLT_asymm {a b : Entry} (h : entryLT a b) : ¬ entryLT b a := by
  unfold entryLT at h ⊢; omega

theorem entryLT_trans {a b c : Entry} (h1 : entryLT a b) (h2 : entryLT b c) :
    entryLT a c := by
  unfold entryLT at h1 h2 ⊢; omega

theorem notLT_trans {a b c : Entry} (h1 : ¬ entryLT b a) (h2 : ¬ entryLT c b) :
    ¬ entryLT c a := by
  unfold entryLT at h1 h2 ⊢; omega

theorem entryLT_of_lt_of_ge {a b c : Entry} (h1 : entryLT a b)
    (h2 : ¬ entryLT c b) : entryLT a c := by
  unfold entryLT at h1 h2 ⊢; omega

theorem getD_set_self {α : Type} {l : List α} {i : Nat} (v d : α)
    (h : i < l.length) : (l.set i v).getD i d = v := by
  simp [List.getD_eq_getElem?_getD, List.getElem?_set_self, h]

theorem getD_set_ne {α : Type} {l : List α} {i j : Nat} (v d : α)
    (h : i ≠ j) : (l.set i v).getD j d = l.getD j d := by
  simp [List.getD_eq_getElem?_getD, List.getElem?_set_ne h]

theorem getD_append_left {α : Type} {l t : List α} {i : Nat} (d : α)
    (h : i < l.length) : (l ++ t).getD i d = l.getD i d := by
  simp [List.getD_eq_getElem?_getD, List.getElem?_append, h]

theorem getD_mem {α : Type} {l : List α} {i : Nat} (d : α)
    (h : i < l.length) : l.getD i d ∈ l := by
  rw [List.getD_eq_getElem?_getD, List.getElem?_eq_getElem h]
  simp [List.getElem_mem]

theorem siftdownLoop_length (x : Entry) (sp : Nat) (l : List Entry) (pos : Nat) :
    (siftdownLoop x sp l pos).length = l.length := by
  induction l, pos using siftdownLoop.induct x sp with
  | case1 l pos h hlt ih =>
    rw [siftdownLoop, dif_pos h, if_pos hlt]
    simpa using ih
  | case2 l pos h hlt =>
    rw [siftdownLoop, dif_pos h, if_neg hlt]; simp
  | case3 l pos h =>
    rw [siftdownLoop, dif_neg h]; simp

theorem siftupLoop_length (endpos : Nat) (l : List Entry) (pos : Nat) :
    (siftupLoop endpos l pos).1.length = l.length := by
  induction l, pos using siftupLoop.induct endpos with
  | case1 l pos h h2 ih =>
    rw [siftupLoop, dif_pos h, dif_pos h2]
    simpa using ih
  | case2 l pos h h2 ih =>
    rw [siftupLoop, dif_pos h, dif_neg h2]
    simpa using ih
  | case3 l pos h =>
    rw [siftupLoop, dif_neg h]

theorem siftupLoop_pos_lt (endpos : Nat) (l : List Entry) (pos : Nat)
    (h0 : pos < endpos) : (siftupLoop endpos l pos).2 < endpos := by
  induction l, pos using siftupLoop.induct endpos with
  | case1 l pos h h2 ih =>
    rw [siftupLoop, dif_pos h, dif_pos h2]
    exact ih h2.1
  | case2 l pos h h2 ih =>
    rw [siftupLoop, dif_pos h, dif_neg h2]
    exact ih h
  | case3 l pos h =>
    rw [siftupLoop, dif_neg h]
    exact h0

theorem siftupLoop_pos_ge (endpos : Nat) (l : List Entry) (pos : Nat) :
    pos ≤ (siftupLoop endpos l pos).2 := by
  induction l, pos using siftupLoop.induct endpos with
  | case1 l pos h h2 ih =>
    rw [siftupLoop, dif_pos h, dif_pos h2]
    omega
  | case2 l pos h h2 ih =>
    rw [siftupLoop, dif_pos h, dif_neg h2]
    omega
  | case3 l pos h =>
    rw [siftupLoop, dif_neg h]

theorem siftup_length (l : List Entry) (pos : Nat) :
    (siftup l pos).length = l.length := by
  unfold siftup
  rw [siftdownLoop_length]
  simp [siftupLoop_length]

theorem cons_getD_set_perm {α : Type} (d : α) :
    ∀ (t : List α) (m : Nat) (v : α), m < t.length →
      List.Perm (t.getD m d :: t.set m v) (v :: t)
  | [], m, v, h => by simp at h
  | b :: t2, 0, v, _ => by
    simpa using List.Perm.swap v b t2
  | b :: t2, m + 1, v, h => by
    have hm : m < t2.length := by simpa using h
    have ih := cons_getD_set_perm d t2 m v hm
    show List.Perm (t2.getD m d :: b :: t2.set m v) (v :: b :: t2)
    exact ((List.Perm.swap b (t2.getD m d) _).trans (ih.cons b)).trans
      (List.Perm.swap v b t2)

theorem cons_set_swap_perm {α : Type} :
    ∀ (t : List α) (m : Nat) (a v : α), m < t.length →
      List.Perm (v :: t.set m a) (a :: t.set m v)
  | [], m, a, v, h => by simp at h
  | b :: t2, 0, a, v, _ => by
    simpa using List.Perm.swap a v t2
  | b :: t2, m + 1, a, v, h => by
    have hm : m < t2.length := by simpa using h
    have ih := cons_set_swap_perm t2 m a v hm
    show List.Perm (v :: b :: t2.set m a) (a :: b :: t2.set m v)
    exact ((List.Perm.swap b v _).trans (ih.cons b)).trans
      (List.Perm.swap a b _)

theorem set_swap_perm {α : Type} (d : α) :
    ∀ (l : List α) (i j : Nat) (v : α), i < l.length → j < l.length → i ≠ j →
      List.Perm ((l.set i (l.getD j d)).set j v) (l.set i v)
  | [], i, j, v, hi, _, _ => by simp at hi
  | a :: t, 0, j + 1, v, _, hj, _ => by
    have hm : j < t.length := by simpa using hj
    simpa using cons_getD_set_perm d t j v hm
  | a :: t, i + 1, 0, v, hi, _, _ => by
    have hn : i < t.length := by simpa using hi
    simpa using cons_set_swap_perm t i a v hn
  | a :: t, i + 1, j + 1, v, hi, hj, hne => by
    have hi2 : i < t.length := by simpa using hi
    have hj2 : j < t.length := by simpa using hj
    have hne2 : i ≠ j := by omega
    simpa using (set_swap_perm d t i j v hi2 hj2 hne2).cons a
  | a :: t, 0, 0, v, _, _, hne => absurd rfl hne

theorem siftdownLoop_perm (x : Entry) (sp : Nat) (l : List Entry) (pos : Nat)
    (hpos : pos < l.length) :
    List.Perm (siftdownLoop x sp l pos) (l.set pos x) := by
  induction l, pos using siftdownLoop.induct x sp with
  | case1 l pos h hlt ih =>
    rw [siftdownLoop, dif_pos h, if_pos hlt]
    have hpp : (pos - 1) / 2 < l.length := by omega
    have step := ih (by simpa using hpp)
    exact step.trans
      (set_swap_perm default l pos ((pos - 1) / 2) x hpos hpp (by omega))
  | case2 l pos h hlt =>
    rw [siftdownLoop, dif_pos h, if_neg hlt]
  | case3 l pos h =>
    rw [siftdownLoop, dif_neg h]

theorem siftupLoop_perm (endpos : Nat) (l : List Entry) (pos : Nat)
    (hend : endpos = l.length) (hpos : pos < endpos) (v : Entry) :
    List.Perm ((siftupLoop endpos l pos).1.set (siftupLoop endpos l pos).2 v)
      (l.set pos v) := by
  induction l, pos using siftupLoop.induct endpos with
  | case1 l pos h h2 ih =>
    rw [siftupLoop, dif_pos h, dif_pos h2]
    have hcp : 2 * pos + 2 < l.length := hend ▸ h2.1
    have step := ih (by simpa using hend) h2.1
    exact step.trans
      (set_swap_perm default l pos (2 * pos + 2) v (by omega) hcp (by omega))
  | case2 l pos h h2 ih =>
    rw [siftupLoop, dif_pos h, dif_neg h2]
    have hcp : 2 * pos + 1 < l.length := hend ▸ h
    have step := ih (by simpa using hend) h
    exact step.trans
      (set_swap_perm default l pos (2 * pos + 1) v (by omega) hcp (by omega))
  | case3 l pos h =>
    rw [siftupLoop, dif_neg h]

theorem set_append_last {α : Type} :
    ∀ (l : List α) (x v : α), (l ++ [x]).set l.length v = l ++ [v]
  | [], x, v => rfl
  | a :: t, x, v => by
    simp [set_append_last t x v]

theorem heappush_perm (l : List Entry) (x : Entry) :
    List.Perm (heappush l x) (l ++ [x]) := by
  unfold heappush
  have h := siftdownLoop_perm x 0 (l ++ [x]) l.length (by simp)
  rwa [set_append_last] at h

theorem siftup_zero_perm (m : List Entry) (hm : 0 < m.length) :
    List.Perm (siftup m 0) (m.set 0 (m.getD 0 default)) := by
  unfold siftup
  have hR2lt : (siftupLoop m.length m 0).2 < m.length :=
    siftupLoop_pos_lt m.length m 0 hm
  have hsdl := siftdownLoop_perm (m.getD 0 default) 0
    ((siftupLoop m.length m 0).1.set (siftupLoop m.length m 0).2
      (m.getD 0 default))
    (siftupLoop m.length m 0).2
    (by simp [siftupLoop_length]; omega)
  rw [List.set_set] at hsdl
  exact hsdl.trans (siftupLoop_perm m.length m 0 rfl hm (m.getD 0 default))

theorem heappop_perm {l l2 : List Entry} {r : Entry}
    (h : heappop l = some (r, l2)) : List.Perm (r :: l2) l := by
  match l with
  | [] => simp [heappop] at h
  | [x] =>
    rw [heappop] at h
    simp [List.dropLast, List.getLast] at h
    rw [h.1.symm, h.2.symm]
  | x :: y :: ys =>
    rw [heappop] at h
    have hrest : ¬ ((x :: y :: ys).dropLast.isEmpty = true) := by
      simp [List.dropLast]
    rw [if_neg hrest] at h
    rw [Option.some_inj, Prod.mk.injEq] at h
    obtain ⟨h1, h2⟩ := h
    have hrlen : 0 < (x :: y :: ys).dropLast.length := by
      simp [List.dropLast]
    have hmlen : 0 < ((x :: y :: ys).dropLast.set 0
        ((x :: y :: ys).getLast (List.cons_ne_nil x (y :: ys)))).length := by
      simp
    have hperm2 : List.Perm l2 ((x :: y :: ys).dropLast.set 0
        ((x :: y :: ys).getLast (List.cons_ne_nil x (y :: ys)))) := by
      rw [← h2]
      have hgd : ((x :: y :: ys).dropLast.set 0
          ((x :: y :: ys).getLast (List.cons_ne_nil x (y :: ys)))).getD 0 default
          = (x :: y :: ys).getLast (List.cons_ne_nil x (y :: ys)) :=
        getD_set_self _ _ hrlen
      have := siftup_zero_perm ((x :: y :: ys).dropLast.set 0
        ((x :: y :: ys).getLast (List.cons_ne_nil x (y :: ys)))) hmlen
      rw [hgd, List.set_set] at this
      exact this
    have hchain : List.Perm (r :: l2)
        ((x :: y :: ys).getLast (List.cons_ne_nil x (y :: ys)) ::
          (x :: y :: ys).dropLast) := by
      rw [← h1]
      exact (hperm2.cons _).trans
        (cons_getD_set_perm default (x :: y :: ys).dropLast 0
          ((x :: y :: ys).getLast (List.cons_ne_nil x (y :: ys))) hrlen)
    have hfin : (x :: y :: ys).dropLast ++
        [(x :: y :: ys).getLast (List.cons_ne_nil x (y :: ys))] = x :: y :: ys :=
      List.dropLast_append_getLast (List.cons_ne_nil x (y :: ys))
    have hstep : List.Perm
        ((x :: y :: ys).getLast (List.cons_ne_nil x (y :: ys)) ::
          (x :: y :: ys).dropLast) (x :: y :: ys) := by
      conv_rhs => rw [← hfin]
      exact (List.perm_append_singleton _ _).symm
    exact hchain.trans hstep

theorem siftdownLoop_isHeap (x : Entry) (l : List Entry) (pos : Nat)
    (hpos : pos < l.length)
    (hA1 : ∀ i, 0 < i → i < l.length → i ≠ pos → (i - 1) / 2 ≠ pos →
      ¬ entryLT (l.getD i default) (l.getD ((i - 1) / 2) default))
    (hA2 : ∀ i, 0 < i → i < l.length → (i - 1) / 2 = pos →
      ¬ entryLT (l.getD i default) x)
    (hB : 0 < pos → ∀ i, 0 < i → i < l.length → (i - 1) / 2 = pos →
      ¬ entryLT (l.getD i default) (l.getD ((pos - 1) / 2) default)) :
    isHeap (siftdownLoop x 0 l pos) := by
  induction l, pos using siftdownLoop.induct x 0 with
  | case1 l pos h hlt ih =>
    rw [siftdownLoop, dif_pos h, if_pos hlt]
    have hpplt : (pos - 1) / 2 < l.length := by omega
    apply ih
    · simpa using hpplt
    · intro i hi0 hilen hine hipne
      rw [List.length_set] at hilen
      have hinepos : i ≠ pos := by omega
      rw [getD_set_ne _ _ (fun he => hinepos he.symm)]
      by_cases hip : (i - 1) / 2 = pos
      · rw [hip, getD_set_self _ _ hpos]
        exact hB h i hi0 hilen hip
      · rw [getD_set_ne _ _ (fun he => hip he.symm)]
        exact hA1 i hi0 hilen hinepos hip
    · intro i hi0 hilen hipp
      rw [List.length_set] at hilen
      by_cases hie : i = pos
      · subst hie
        rw [getD_set_self _ _ hpos]
        exact entryLT_asymm hlt
      · rw [getD_set_ne _ _ (fun he => hie he.symm)]
        have hne : (i - 1) / 2 ≠ pos := by omega
        have h1 := hA1 i hi0 hilen hie hne
        rw [hipp] at h1
        exact fun hc => entryLT_asymm (entryLT_of_lt_of_ge hlt h1) hc
    · intro hpp0 i hi0 hilen hipp
      rw [List.length_set] at hilen
      have hgpne : ((pos - 1) / 2 - 1) / 2 ≠ pos := by omega
      have hppne : (pos - 1) / 2 ≠ pos := by omega
      have hP := hA1 ((pos - 1) / 2) hpp0 hpplt hppne hgpne
      rw [getD_set_ne _ _ (fun he => hgpne he.symm)]
      by_cases hie : i = pos
      · subst hie
        rw [getD_set_self _ _ hpos]
        exact hP
      · rw [getD_set_ne _ _ (fun he => hie he.symm)]
        have h1 := hA1 i hi0 hilen hie (by omega)
        rw [hipp] at h1
        exact notLT_trans hP h1
  | case2 l pos h hlt =>
    rw [siftdownLoop, dif_pos h, if_neg hlt]
    intro i hi0 hilen
    rw [List.length_set] at hilen
    by_cases hie : i = pos
    · subst hie
      rw [getD_set_self _ _ hpos,
        getD_set_ne _ _ (by omega : i ≠ (i - 1) / 2)]
      exact hlt
    · rw [getD_set_ne _ _ (fun he => hie he.symm)]
      by_cases hip : (i - 1) / 2 = pos
      · rw [hip, getD_set_self _ _ hpos]
        exact hA2 i hi0 hilen hip
      · rw [getD_set_ne _ _ (fun he => hip he.symm)]
        exact hA1 i hi0 hilen hie hip
  | case3 l pos h =>
    rw [siftdownLoop, dif_neg h]
    have hp0 : pos = 0 := by omega
    subst hp0
    intro i hi0 hilen
    rw [List.length_set] at hilen
    rw [getD_set_ne _ _ (by omega : (0 : Nat) ≠ i)]
    by_cases hip : (i - 1) / 2 = 0
    · rw [hip, getD_set_self _ _ hpos]
      exact hA2 i hi0 hilen hip
    · rw [getD_set_ne _ _ (fun he => hip he.symm)]
      exact hA1 i hi0 hilen (by omega) hip

theorem heappush_isHeap (l : List Entry) (x : Entry) (hheap : isHeap l) :
    isHeap (heappush l x) := by
  unfold heappush
  apply siftdownLoop_isHeap
  · simp
  · intro i hi0 hilen hine _
    simp at hilen
    have hil : i < l.length := by omega
    have hpl : (i - 1) / 2 < l.length := by omega
    rw [getD_append_left _ hil, getD_append_left _ hpl]
    exact hheap i hi0 hil
  · intro i hi0 hilen hip
    simp at hilen
    omega
  · intro hp0 i hi0 hilen hip
    simp at hilen
    omega

theorem siftupLoop_E (endpos : Nat) (l : List Entry) (pos : Nat)
    (hend : endpos = l.length) (hpos : pos < endpos)
    (hE : ∀ i, 0 < i → i < endpos → (i - 1) / 2 ≠ pos →
      ¬ entryLT (l.getD i default) (l.getD ((i - 1) / 2) default))
    (hF : 0 < pos → ∀ i, 0 < i → i < endpos → (i - 1) / 2 = pos →
      ¬ entryLT (l.getD i default) (l.getD ((pos - 1) / 2) default)) :
    (∀ i, 0 < i → i < endpos → (i - 1) / 2 ≠ (siftupLoop endpos l pos).2 →
      ¬ entryLT ((siftupLoop endpos l pos).1.getD i default)
        ((siftupLoop endpos l pos).1.getD ((i - 1) / 2) default)) ∧
    ¬ (2 * (siftupLoop endpos l pos).2 + 1 < endpos) := by
  induction l, pos using siftupLoop.induct endpos with
  | case1 l pos h h2 ih =>
    rw [siftupLoop, dif_pos h, dif_pos h2]
    have hleft : 2 * pos + 1 < l.length := hend ▸ h
    have hright : 2 * pos + 2 < l.length := hend ▸ h2.1
    have hposl : pos < l.length := hend ▸ hpos
    apply ih
    · simpa using hend
    · exact h2.1
    · intro i hi0 hilen hipne
      by_cases hip : (i - 1) / 2 = pos
      · have : i = 2 * pos + 1 ∨ i = 2 * pos + 2 := by omega
        rcases this with hieq | hieq
        · subst hieq
          rw [getD_set_ne _ _ (by omega : pos ≠ 2 * pos + 1), hip,
            getD_set_self _ _ hposl]
          exact h2.2
        · subst hieq
          rw [getD_set_ne _ _ (by omega : pos ≠ 2 * pos + 2), hip,
            getD_set_self _ _ hposl]
          exact entryLT_irrefl _
      · by_cases hie : i = pos
        · subst hie
          rw [getD_set_self _ _ hposl,
            getD_set_ne _ _ (by omega : i ≠ (i - 1) / 2)]
          have := hF hi0 (2 * i + 2) (by omega) h2.1 (by omega)
          exact this
        · rw [getD_set_ne _ _ (fun he => hie he.symm),
            getD_set_ne _ _ (fun he => hip he.symm)]
          exact hE i hi0 hilen hip
    · intro _ i hi0 hilen hip
      have hipos : (2 * pos + 2 - 1) / 2 = pos := by omega
      rw [hipos]
      have hine : i ≠ pos := by omega
      rw [getD_set_ne _ _ (fun he => hine he.symm), getD_set_self _ _ hposl]
      have h1 := hE i hi0 hilen (by omega)
      rw [hip] at h1
      exact h1
  | case2 l pos h h2 ih =>
    rw [siftupLoop, dif_pos h, dif_neg h2]
    have hleft : 2 * pos + 1 < l.length := hend ▸ h
    have hposl : pos < l.length := hend ▸ hpos
    have h2i : 2 * pos + 2 < endpos →
        entryLT (l.getD (2 * pos + 1) default) (l.getD (2 * pos + 2) default) := by
      intro hr
      by_contra hc
      exact h2 ⟨hr, hc⟩
    apply ih
    · simpa using hend
    · exact h
    · intro i hi0 hilen hipne
      by_cases hip : (i - 1) / 2 = pos
      · have : i = 2 * pos + 1 ∨ i = 2 * pos + 2 := by omega
        rcases this with hieq | hieq
        · subst hieq
          rw [getD_set_ne _ _ (by omega : pos ≠ 2 * pos + 1), hip,
            getD_set_self _ _ hposl]
          exact entryLT_irrefl _
        · subst hieq
          rw [getD_set_ne _ _ (by omega : pos ≠ 2 * pos + 2), hip,
            getD_set_self _ _ hposl]
          exact entryLT_asymm (h2i hilen)
      · by_cases hie : i = pos
        · subst hie
          rw [getD_set_self _ _ hposl,
            getD_set_ne _ _ (by omega : i ≠ (i - 1) / 2)]
          exact hF hi0 (2 * i + 1) (by omega) h (by omega)
        · rw [getD_set_ne _ _ (fun he => hie he.symm),
            getD_set_ne _ _ (fun he => hip he.symm)]
          exact hE i hi0 hilen hip
    · intro _ i hi0 hilen hip
      have hipos : (2 * pos + 1 - 1) / 2 = pos := by omega
      rw [hipos]
      have hine : i ≠ pos := by omega
      rw [getD_set_ne _ _ (fun he => hine he.symm), getD_set_self _ _ hposl]
      have h1 := hE i hi0 hilen (by omega)
      rw [hip] at h1
      exact h1
  | case3 l pos h =>
    rw [siftupLoop, dif_neg h]
    exact ⟨fun i hi0 hilen hipne => hE i hi0 hilen hipne, h⟩

theorem siftup_isHeap (m : List Entry) (hm : 0 < m.length)
    (hE : ∀ i, 0 < i → i < m.length → (i - 1) / 2 ≠ 0 →
      ¬ entryLT (m.getD i default) (m.getD ((i - 1) / 2) default)) :
    isHeap (siftup m 0) := by
  unfold siftup
  obtain ⟨hEfin, hleaf⟩ := siftupLoop_E m.length m 0 rfl hm
    (fun i hi0 hilen hipne => hE i hi0 hilen hipne)
    (fun h0 => absurd h0 (by omega))
  have hR1len : (siftupLoop m.length m 0).1.length = m.length :=
    siftupLoop_length m.length m 0
  have hR2lt : (siftupLoop m.length m 0).2 < m.length :=
    siftupLoop_pos_lt m.length m 0 hm
  apply siftdownLoop_isHeap
  · simp only [List.length_set]
    omega
  · intro i hi0 hilen hine hipne
    simp only [List.length_set] at hilen
    rw [getD_set_ne _ _ (fun he => hine he.symm),
      getD_set_ne _ _ (fun he => hipne he.symm)]
    exact hEfin i hi0 (by omega) hipne
  · intro i hi0 hilen hip
    simp only [List.length_set] at hilen
    omega
  · intro hp0 i hi0 hilen hip
    simp only [List.length_set] at hilen
    omega

theorem heappop_isHeap {l l2 : List Entry} {r : Entry} (hheap : isHeap l)
    (h : heappop l = some (r, l2)) : isHeap l2 := by
  match l with
  | [] => simp [heappop] at h
  | [x] =>
    rw [heappop] at h
    simp [List.dropLast, List.getLast] at h
    rw [h.2]
    intro i hi0 hilen
    simp at hilen
  | x :: y :: ys =>
    rw [heappop] at h
    have hrest : ¬ ((x :: y :: ys).dropLast.isEmpty = true) := by
      simp [List.dropLast]
    rw [if_neg hrest, Option.some_inj, Prod.mk.injEq] at h
    rw [← h.2]
    have hrlen : 0 < (x :: y :: ys).dropLast.length := by
      simp [List.dropLast]
    have hfin : (x :: y :: ys).dropLast ++
        [(x :: y :: ys).getLast (List.cons_ne_nil x (y :: ys))] = x :: y :: ys :=
      List.dropLast_append_getLast (List.cons_ne_nil x (y :: ys))
    apply siftup_isHeap
    · simp
    · intro i hi0 hilen hipne
      simp only [List.length_set] at hilen
      rw [getD_set_ne _ _ (by omega : (0 : Nat) ≠ i),
        getD_set_ne _ _ (fun he => hipne he.symm)]
      have hlen2 : (x :: y :: ys).dropLast.length + 1 = (x :: y :: ys).length := by
        simp
      have hgi : (x :: y :: ys).dropLast.getD i default =
          (x :: y :: ys).getD i default := by
        conv_rhs => rw [← hfin]
        rw [getD_append_left _ hilen]
      have hgp : (x :: y :: ys).dropLast.getD ((i - 1) / 2) default =
          (x :: y :: ys).getD ((i - 1) / 2) default := by
        conv_rhs => rw [← hfin]
        rw [getD_append_left _ (by omega)]
      rw [hgi, hgp]
      exact hheap i hi0 (by omega)

theorem heappop_root {l l2 : List Entry} {r : Entry}
    (h : heappop l = some (r, l2)) : r = l.getD 0 default := by
  match l with
  | [] => simp [heappop] at h
  | [x] =>
    rw [heappop] at h
    simp [List.dropLast, List.getLast] at h
    rw [← h.1]
    rfl
  | x :: y :: ys =>
    rw [heappop] at h
    have hrest : ¬ ((x :: y :: ys).dropLast.isEmpty = true) := by
      simp [List.dropLast]
    rw [if_neg hrest, Option.some_inj, Prod.mk.injEq] at h
    rw [← h.1]
    rfl

theorem isHeap_min (l : List Entry) (hheap : isHeap l) :
    ∀ i, i < l.length → ¬ entryLT (l.getD i default) (l.getD 0 default) := by
  intro i
  induction i using Nat.strong_induction_on with
  | _ i ih =>
    intro hlen
    rcases Nat.eq_zero_or_pos i with h0 | h0
    · subst h0; exact entryLT_irrefl _
    · exact notLT_trans (ih ((i - 1) / 2) (by omega) (by omega)) (hheap i h0 hlen)

theorem isHeap_min_mem {l : List Entry} (hheap : isHeap l) {y : Entry}
    (hy : y ∈ l) : ¬ entryLT y (l.getD 0 default) := by
  obtain ⟨i, hi, heq⟩ := List.mem_iff_getElem.mp hy
  have : l.getD i default = y := by
    rw [List.getD_eq_getElem?_getD, List.getElem?_eq_getElem hi]
    simpa using heq
  rw [← this]
  exact isHeap_min l hheap i hi

theorem heappush_length (l : List Entry) (x : Entry) :
    (heappush l x).length = l.length + 1 := by
  have := (heappush_perm l x).length_eq
  simpa using this

theorem heappop_length {l l2 : List Entry} {r : Entry}
    (h : heappop l = some (r, l2)) : l2.length + 1 = l.length := by
  have := (heappop_perm h).length_eq
  simpa using this

theorem heappop_of_ne_nil {l : List Entry} (h : l ≠ []) :
    ∃ r l2, heappop l = some (r, l2) := by
  match l with
  | [] => exact absurd rfl h
  | x :: xs =>
    rw [heappop]
    by_cases hrest : (x :: xs).dropLast.isEmpty
    · rw [if_pos hrest]
      exact ⟨_, _, rfl⟩
    · rw [if_neg hrest]
      exact ⟨_, _, rfl⟩

theorem heappop_mem_head {l l2 : List Entry} {r : Entry}
    (h : heappop l = some (r, l2)) : r ∈ l :=
  (heappop_perm h).mem_iff.mp (List.mem_cons_self r l2)

theorem heappop_mem_rest {l l2 : List Entry} {r y : Entry}
    (h : heappop l = some (r, l2)) (hy : y ∈ l2) : y ∈ l :=
  (heappop_perm h).mem_iff.mp (List.mem_cons_of_mem r hy)

theorem lookup_map_replace {β : Type} (k : String) (v : β) :
    ∀ l : List (String × β),
      (l.map (fun p => if p.1 = k then (p.1, v) else p)).lookup k =
        (l.lookup k).map (fun _ => v)
  | [] => rfl
  | (a, b) :: t => by
    simp only [List.map_cons]
    by_cases hak : a = k
    · subst hak
      rw [if_pos rfl]
      simp only [List.lookup, beq_self_eq_true]
      rfl
    · rw [if_neg (by simpa using hak)]
      simp only [List.lookup]
      have hka : (k == a) = false := by simp [Ne.symm hak]
      rw [hka]
      exact lookup_map_replace k v t

theorem lookup_map_replace_ne {β : Type} (k k2 : String) (v : β)
    (hne : k ≠ k2) :
    ∀ l : List (String × β),
      (l.map (fun p => if p.1 = k then (p.1, v) else p)).lookup k2 =
        l.lookup k2
  | [] => rfl
  | (a, b) :: t => by
    simp only [List.map_cons]
    by_cases hak : a = k
    · subst hak
      rw [if_pos rfl]
      simp only [List.lookup]
      have hka : (k2 == a) = false := by
        rw [beq_eq_false_iff_ne]
        exact Ne.symm hne
      rw [hka]
      exact lookup_map_replace_ne a k2 v hne t
    · rw [if_neg (by simpa using hak)]
      simp only [List.lookup]
      cases hka : (k2 == a)
      · exact lookup_map_replace_ne k k2 v hne t
      · rfl

theorem lookup_append_none {β : Type} (k : String) (t : List (String × β)) :
    ∀ l : List (String × β), l.lookup k = none →
      (l ++ t).lookup k = t.lookup k
  | [], _ => rfl
  | (a, b) :: l2, h => by
    simp only [List.lookup] at h
    simp only [List.cons_append, List.lookup]
    cases hka : (k == a)
    · rw [hka] at h
      exact lookup_append_none k t l2 h
    · rw [hka] at h
      simp at h

theorem lookup_append_some {β : Type} (k : String) (t : List (String × β))
    {v : β} : ∀ l : List (String × β), l.lookup k = some v →
      (l ++ t).lookup k = some v
  | [], h => by simp [List.lookup] at h
  | (a, b) :: l2, h => by
    simp only [List.lookup] at h
    simp only [List.cons_append, List.lookup]
    cases hka : (k == a)
    · rw [hka] at h
      exact lookup_append_some k t l2 h
    · rw [hka] at h
      simpa using h

theorem lookup_dictSet_self {β : Type} (k : String) (v : β)
    (l : List (String × β)) : (dictSet k v l).lookup k = some v := by
  unfold dictSet
  by_cases h : (l.lookup k).isSome
  · rw [if_pos h, lookup_map_replace]
    obtain ⟨w, hw⟩ := Option.isSome_iff_exists.mp h
    rw [hw]
    rfl
  · rw [if_neg h]
    have hn : l.lookup k = none := Option.not_isSome_iff_eq_none.mp h
    rw [lookup_append_none k _ l hn]
    simp [List.lookup]

theorem lookup_dictSet_ne {β : Type} (k k2 : String) (v : β)
    (l : List (String × β)) (hne : k ≠ k2) :
    (dictSet k v l).lookup k2 = l.lookup k2 := by
  unfold dictSet
  by_cases h : (l.lookup k).isSome
  · rw [if_pos h, lookup_map_replace_ne k k2 v hne]
  · rw [if_neg h]
    cases hl : l.lookup k2 with
    | none =>
      rw [lookup_append_none k2 _ l hl]
      simp only [List.lookup]
      have hkk : (k2 == k) = false := by
        rw [beq_eq_false_iff_ne]
        exact Ne.symm hne
      rw [hkk]
    | some w => rw [lookup_append_some k2 _ l hl]

theorem lookup_mem {β : Type} {k : String} {v : β} :
    ∀ {l : List (String × β)}, l.lookup k = some v → (k, v) ∈ l := by
  intro l
  induction l with
  | nil => intro h; simp [List.lookup] at h
  | cons p t ih =>
    intro h
    obtain ⟨a, b⟩ := p
    simp only [List.lookup] at h
    cases hka : (k == a)
    · rw [hka] at h
      exact List.mem_cons_of_mem _ (ih h)
    · rw [hka] at h
      have hk : k = a := by simpa using hka
      have hv : b = v := by simpa using h
      subst hk; subst hv
      exact List.mem_cons_self _ _

theorem dictSet_keys_id {k : String} {v : ProcessingJob}
    {l : List (String × ProcessingJob)}
    (hl : ∀ p ∈ l, p.2.id = p.1) (hv : v.id = k) :
    ∀ p ∈ dictSet k v l, p.2.id = p.1 := by
  intro p hp
  unfold dictSet at hp
  by_cases h : (l.lookup k).isSome
  · rw [if_pos h] at hp
    obtain ⟨q, hq, hqe⟩ := List.mem_map.mp hp
    by_cases hqk : q.1 = k
    · rw [if_pos hqk] at hqe
      rw [← hqe]
      simpa [hqk] using hv
    · rw [if_neg hqk] at hqe
      rw [← hqe]
      exact hl q hq
  · rw [if_neg h] at hp
    rcases List.mem_append.mp hp with hin | hin
    · exact hl p hin
    · have : p = (k, v) := by simpa using hin
      rw [this]
      exact hv

theorem getNextJobAux_some_spec (now : Nat) :
    ∀ (fuel : Nat) (s s2 : ProcessingQueue) (j : ProcessingJob),
      getNextJobAux now fuel s = (some j, s2) →
      j.status = .processing ∧ j.startedAt = some now ∧
      s2.queue.length < s.queue.length ∧
      ∃ e job, e ∈ s.queue ∧ s.jobs.lookup e.id = some job ∧
        job.status ≠ .cancelled ∧
        j = { job with
              status := .processing,
              startedAt := some now,
              message := "Processing started" } ∧
        s2.jobs = dictSet e.id j s.jobs := by
  intro fuel
  induction fuel with
  | zero =>
    intro s s2 j h
    simp [getNextJobAux] at h
  | succ fuel ih =>
    intro s s2 j h
    rw [getNextJobAux] at h
    cases hpop : heappop s.queue with
    | none =>
      rw [hpop] at h
      simp at h
    | some p =>
      obtain ⟨e, rest⟩ := p
      rw [hpop] at h
      dsimp only at h
      have hlen : rest.length + 1 = s.queue.length := heappop_length hpop
      cases hlook : s.jobs.lookup e.id with
      | none =>
        rw [hlook] at h
        dsimp only at h
        obtain ⟨h1, h2, h3, e2, job2, hmem, hl2, hnc, hj, hjobs⟩ := ih _ _ _ h
        simp only at h3
        exact ⟨h1, h2, by omega, e2, job2, heappop_mem_rest hpop hmem,
          hl2, hnc, hj, hjobs⟩
      | some job =>
        rw [hlook] at h
        dsimp only at h
        by_cases hst : job.status = JobStatus.cancelled
        · rw [if_pos hst] at h
          obtain ⟨h1, h2, h3, e2, job2, hmem, hl2, hnc, hj, hjobs⟩ := ih _ _ _ h
          simp only at h3
          exact ⟨h1, h2, by omega, e2, job2, heappop_mem_rest hpop hmem,
            hl2, hnc, hj, hjobs⟩
        · rw [if_neg hst] at h
          rw [Prod.mk.injEq, Option.some_inj] at h
          obtain ⟨hj, hs2⟩ := h
          refine ⟨by rw [← hj], by rw [← hj], ?_, e, job,
            heappop_mem_head hpop, hlook, hst, hj.symm, ?_⟩
          · rw [← hs2]
            simp only
            omega
          · rw [← hs2, ← hj]

theorem getNextJob_some_spec {s s2 : ProcessingQueue} {j : ProcessingJob}
    {now : Nat} (h : getNextJob s now = (some j, s2)) :
    j.status = .processing ∧ j.startedAt = some now ∧
    s2.queue.length < s.queue.length ∧
    ∃ e job, e ∈ s.queue ∧ s.jobs.lookup e.id = some job ∧
      job.status ≠ .cancelled ∧
      j = { job with
            status := .processing,
            startedAt := some now,
            message := "Processing started" } ∧
      s2.jobs = dictSet e.id j s.jobs :=
  getNextJobAux_some_spec now s.queue.length s s2 j h

theorem getNextJob_id_spec {s s2 : ProcessingQueue} {j : ProcessingJob}
    {now : Nat} (hkeys : ∀ p ∈ s.jobs, p.2.id = p.1)
    (h : getNextJob s now = (some j, s2)) :
    (∃ job, s.jobs.lookup j.id = some job ∧ job.status ≠ .cancelled) ∧
    statusOf s2 j.id = some .processing := by
  obtain ⟨h1, h2, h3, e, job, hmem, hlook, hnc, rfl, hjobs⟩ :=
    getNextJob_some_spec h
  have hjid : job.id = e.id := hkeys (e.id, job) (lookup_mem hlook)
  constructor
  · refine ⟨job, ?_, hnc⟩
    show List.lookup job.id s.jobs = some job
    rw [hjid]
    exact hlook
  · unfold statusOf
    rw [hjobs]
    show Option.map _ (List.lookup job.id _) = _
    rw [hjid, lookup_dictSet_self]
    rfl

theorem getNextJob_preserves_cancelled {s s2 : ProcessingQueue}
    {j : ProcessingJob} {now : Nat} {jobId : String}
    (h : getNextJob s now = (some j, s2))
    (hc : statusOf s jobId = some .cancelled) :
    statusOf s2 jobId = some .cancelled := by
  obtain ⟨h1, h2, h3, e, job, hmem, hlook, hnc, rfl, hjobs⟩ :=
    getNextJob_some_spec h
  have hne : e.id ≠ jobId := by
    intro he
    unfold statusOf at hc
    rw [← he, hlook] at hc
    simp at hc
    exact hnc hc
  unfold statusOf at hc ⊢
  rw [hjobs, lookup_dictSet_ne _ _ _ _ hne]
  exact hc

theorem getNextJob_preserves_keys {s s2 : ProcessingQueue}
    {j : ProcessingJob} {now : Nat}
    (hkeys : ∀ p ∈ s.jobs, p.2.id = p.1)
    (h : getNextJob s now = (some j, s2)) :
    ∀ p ∈ s2.jobs, p.2.id = p.1 := by
  obtain ⟨h1, h2, h3, e, job, hmem, hlook, hnc, rfl, hjobs⟩ :=
    getNextJob_some_spec h
  have hjid : job.id = e.id := hkeys (e.id, job) (lookup_mem hlook)
  rw [hjobs]
  exact dictSet_keys_id hkeys hjid

theorem getNextJob_not_cancelled_id {s s2 : ProcessingQueue}
    {j : ProcessingJob} {now : Nat} {jobId : String}
    (hkeys : ∀ p ∈ s.jobs, p.2.id = p.1)
    (h : getNextJob s now = (some j, s2))
    (hc : statusOf s jobId = some .cancelled) : j.id ≠ jobId := by
  obtain ⟨⟨job, hlook, hnc⟩, _⟩ := getNextJob_id_spec hkeys h
  intro he
  unfold statusOf at hc
  rw [← he, hlook] at hc
  simp at hc
  exact hnc hc

theorem getNextJobAux_all_cancelled (now : Nat) :
    ∀ (fuel : Nat) (s : ProcessingQueue),
      (∀ e ∈ s.queue, statusOf s e.id = some .cancelled) →
      (getNextJobAux now fuel s).1 = none := by
  intro fuel
  induction fuel with
  | zero => intro s _; rfl
  | succ fuel ih =>
    intro s hall
    rw [getNextJobAux]
    cases hpop : heappop s.queue with
    | none => rfl
    | some p =>
      obtain ⟨e, rest⟩ := p
      have hc := hall e (heappop_mem_head hpop)
      unfold statusOf at hc
      obtain ⟨job, hlook, hst⟩ := Option.map_eq_some'.mp hc
      dsimp only
      rw [hlook]
      dsimp only
      rw [if_pos hst]
      exact ih _ (fun e2 hmem => hall e2 (heappop_mem_rest hpop hmem))

theorem getNextJob_step (s : ProcessingQueue) (now : Nat)
    (hq : s.queue ≠ [])
    (hentries : ∀ e ∈ s.queue, ∃ job, s.jobs.lookup e.id = some job ∧
      job.status = .queued ∧ job.priority.val = e.prio ∧ job.createdAt = e.ts) :
    ∃ e rest job,
      heappop s.queue = some (e, rest) ∧
      s.jobs.lookup e.id = some job ∧ job.status = .queued ∧
      job.priority.val = e.prio ∧ job.createdAt = e.ts ∧
      getNextJob s now =
        (some { job with
                status := .processing,
                startedAt := some now,
                message := "Processing started" },
          { s with
            queue := rest,
            jobs := dictSet e.id
              { job with
                status := .processing,
                startedAt := some now,
                message := "Processing started" } s.jobs }) := by
  obtain ⟨e, rest, hpop⟩ := heappop_of_ne_nil hq
  obtain ⟨job, hlook, hst, hp, ht⟩ := hentries e (heappop_mem_head hpop)
  refine ⟨e, rest, job, hpop, hlook, hst, hp, ht, ?_⟩
  unfold getNextJob
  cases hlen : s.queue.length with
  | zero => exact absurd (List.length_eq_zero.mp hlen) hq
  | succ k =>
    rw [getNextJobAux]
    rw [hpop]
    dsimp only
    rw [hlook]
    dsimp only
    rw [if_neg (by rw [hst]; intro hcon; exact JobStatus.noConfusion hcon)]

theorem getNextJob_step_inv (s : ProcessingQueue) {e : Entry}
    {rest : List Entry}
    (hinv : queueInv s)
    (hpop : heappop s.queue = some (e, rest)) :
    ∀ (j2 : ProcessingJob),
      queueInv { s with queue := rest, jobs := dictSet e.id j2 s.jobs } := by
  intro j2
  obtain ⟨hheap, hnodup, hentries⟩ := hinv
  have hperm := heappop_perm hpop
  have hpermid := hperm.map Entry.id
  have hnodup2 : (e.id :: rest.map Entry.id).Nodup :=
    (hpermid.nodup_iff).mpr hnodup
  refine ⟨heappop_isHeap hheap hpop, (List.nodup_cons.mp hnodup2).2, ?_⟩
  intro e2 hmem2
  simp only at hmem2
  have hmem2q : e2 ∈ s.queue := heappop_mem_rest hpop hmem2
  obtain ⟨job2, hl2, hst2, hp2, ht2⟩ := hentries e2 hmem2q
  have hne : e.id ≠ e2.id := by
    intro he
    exact (List.nodup_cons.mp hnodup2).1
      (he ▸ List.mem_map_of_mem Entry.id hmem2)
  refine ⟨job2, ?_, hst2, hp2, ht2⟩
  simp only
  rw [lookup_dictSet_ne _ _ _ _ hne]
  exact hl2

theorem drainJobs_spec (now : Nat) :
    ∀ (k : Nat) (s : ProcessingQueue), queueInv s →
      (∀ j2 ∈ drainJobs now k s, ∃ e2, e2 ∈ s.queue ∧
        j2.priority.val = e2.prio ∧ j2.createdAt = e2.ts) ∧
      List.Pairwise (fun a b => a.priority.val < b.priority.val ∨
        (a.priority.val = b.priority.val ∧ a.createdAt ≤ b.createdAt))
        (drainJobs now k s) := by
  intro k
  induction k with
  | zero =>
    intro s _
    constructor
    · intro j2 hj2
      simp [drainJobs] at hj2
    · rw [drainJobs]
      exact List.Pairwise.nil
  | succ k ih =>
    intro s hinv
    by_cases hq : s.queue = []
    · have hnone : getNextJob s now = (none, s) := by
        unfold getNextJob
        rw [hq]
        rfl
      rw [drainJobs, hnone]
      constructor
      · intro j2 hj2
        simp at hj2
      · exact List.Pairwise.nil
    · obtain ⟨e, rest, job, hpop, hlook, hst, hp, ht, hgnj⟩ :=
        getNextJob_step s now hq hinv.2.2
      rw [drainJobs, hgnj]
      dsimp only
      have hinv2 := getNextJob_step_inv s hinv hpop
        { job with
          status := .processing,
          startedAt := some now,
          message := "Processing started" }
      obtain ⟨ihmem, ihsorted⟩ := ih _ hinv2
      have hroot : e = s.queue.getD 0 default := heappop_root hpop
      constructor
      · intro j2 hj2
        rcases List.mem_cons.mp hj2 with hj2 | hj2
        · exact ⟨e, heappop_mem_head hpop, by rw [hj2]; exact hp,
            by rw [hj2]; exact ht⟩
        · obtain ⟨e2, hmem2, hp2, ht2⟩ := ihmem j2 hj2
          exact ⟨e2, heappop_mem_rest hpop hmem2, hp2, ht2⟩
      · refine List.pairwise_cons.mpr ⟨?_, ihsorted⟩
        intro j2 hj2
        obtain ⟨e2, hmem2, hp2, ht2⟩ := ihmem j2 hj2
        have hmin := isHeap_min_mem hinv.1 (heappop_mem_rest hpop hmem2)
        rw [← hroot] at hmin
        unfold entryLT at hmin
        simp only
        rw [hp2, ht2, hp, ht]
        omega

theorem addJob_success {s : ProcessingQueue} {jobId : String}
    (p : JobPriority) (md : List (String × String)) (now : Nat)
    (hcap : s.queue.length < s.maxQueueSize)
    (hfresh : s.jobs.lookup jobId = none) :
    addJob s jobId p md now =
      (.ok { id := jobId, priority := p, status := .queued,
             createdAt := now, metadata := md },
        { s with
          jobs := dictSet jobId
            { id := jobId, priority := p, status := .queued,
              createdAt := now, metadata := md } s.jobs,
          queue := heappush s.queue ⟨p.val, now, jobId⟩ }) := by
  unfold addJob
  rw [if_neg (by omega), if_neg (by rw [hfresh]; simp)]

theorem addAll_queueInv :
    ∀ (adds : List (String × JobPriority × Nat)) (s : ProcessingQueue),
      queueInv s →
      (∀ t ∈ adds, s.jobs.lookup t.1 = none) →
      (adds.map (fun t => t.1)).Nodup →
      s.queue.length + adds.length ≤ s.maxQueueSize →
      queueInv (addAll s adds) := by
  intro adds
  induction adds with
  | nil => intro s hinv _ _ _; exact hinv
  | cons t rest ih =>
    intro s hinv hfresh hnodup hcap
    obtain ⟨tid, tp, tts⟩ := t
    have hf1 : s.jobs.lookup tid = none := hfresh _ (List.mem_cons_self _ _)
    have hcap1 : s.queue.length < s.maxQueueSize := by
      simp at hcap
      omega
    have hstep := addJob_success tp [] tts hcap1 hf1
    have hfold : addAll s ((tid, tp, tts) :: rest) =
        addAll { s with
          jobs := dictSet tid
            { id := tid, priority := tp, status := .queued,
              createdAt := tts, metadata := [] } s.jobs,
          queue := heappush s.queue ⟨tp.val, tts, tid⟩ } rest := by
      unfold addAll
      rw [List.foldl_cons]
      congr 1
      rw [hstep]
    rw [hfold]
    obtain ⟨hheap, hnodupq, hentries⟩ := hinv
    have hpushperm := heappush_perm s.queue ⟨tp.val, tts, tid⟩
    have hpushid := hpushperm.map Entry.id
    have hidfresh : tid ∉ s.queue.map Entry.id := by
      intro hmem
      obtain ⟨e2, hmem2, hid2⟩ := List.mem_map.mp hmem
      obtain ⟨job2, hl2, _, _, _⟩ := hentries e2 hmem2
      rw [hid2] at hl2
      rw [hf1] at hl2
      exact Option.noConfusion hl2
    apply ih
    · refine ⟨heappush_isHeap _ _ hheap, ?_, ?_⟩
      · rw [List.Perm.nodup_iff hpushid]
        simp only [List.map_append]
        rw [List.nodup_append]
        refine ⟨hnodupq, by simp, ?_⟩
        intro a ha hb
        simp at hb
        rw [hb] at ha
        exact hidfresh ha
      · intro e2 hmem2
        simp only at hmem2
        have hmemor : e2 ∈ s.queue ∨ e2 = ⟨tp.val, tts, tid⟩ := by
          have := hpushperm.mem_iff.mp hmem2
          simpa using this
        rcases hmemor with hold | hnew
        · obtain ⟨job2, hl2, hst2, hp2, ht2⟩ := hentries e2 hold
          have hne : tid ≠ e2.id := by
            intro he
            rw [← he, hf1] at hl2
            exact Option.noConfusion hl2
          refine ⟨job2, ?_, hst2, hp2, ht2⟩
          simp only
          rw [lookup_dictSet_ne _ _ _ _ hne]
          exact hl2
        · subst hnew
          refine ⟨{ id := tid,
                    priority := tp,
                    status := .queued,
                    createdAt := tts,
                    metadata := [] }, ?_, rfl, rfl, rfl⟩
          simp only
          exact lookup_dictSet_self _ _ _
    · intro t2 hmem2
      have hne : tid ≠ t2.1 := by
        intro he
        have hmm : t2.1 ∈ rest.map (fun t => t.1) :=
          List.mem_map_of_mem _ hmem2
        rw [← he] at hmm
        exact (List.nodup_cons.mp (by simpa using hnodup)).1 hmm
      simp only
      rw [lookup_dictSet_ne _ _ _ _ hne]
      exact hfresh t2 (List.mem_cons_of_mem _ hmem2)
    · exact (List.nodup_cons.mp (by simpa using hnodup)).2
    · simp only [heappush_length]
      simp at hcap
      omega

theorem drainJobs_cancelled_aux (now : Nat) :
    ∀ (k : Nat) (s : ProcessingQueue) (jobId : String),
      (∀ p ∈ s.jobs, p.2.id = p.1) →
      statusOf s jobId = some .cancelled →
      ∀ j2 ∈ drainJobs now k s, j2.id ≠ jobId := by
  intro k
  induction k with
  | zero =>
    intro s jobId _ _ j2 hj2
    simp [drainJobs] at hj2
  | succ k ih =>
    intro s jobId hkeys hc j2 hj2
    rw [drainJobs] at hj2
    cases hgnj : getNextJob s now with
    | mk fst s1 =>
      cases fst with
      | none =>
        rw [hgnj] at hj2
        simp at hj2
      | some j1 =>
        rw [hgnj] at hj2
        rcases List.mem_cons.mp hj2 with h | h
        · rw [h]
          exact getNextJob_not_cancelled_id hkeys hgnj hc
        · exact ih s1 jobId (getNextJob_preserves_keys hkeys hgnj)
            (getNextJob_preserves_cancelled hgnj hc) j2 h

theorem scanAhead_takeWhile (jobId : String) (p : Nat) :
    ∀ l : List Entry, scanAhead jobId p l =
      ((l.takeWhile (fun e => !(e.id == jobId))).filter
        (fun e => decide (e.prio ≤ p))).length
  | [] => rfl
  | e :: rest => by
    rw [scanAhead]
    by_cases hid : e.id = jobId
    · rw [if_pos hid]
      have hb : (!(e.id == jobId)) = false := by simp [hid]
      rw [List.takeWhile_cons, hb, if_neg (by simp)]
      rfl
    · rw [if_neg hid]
      have hb : (!(e.id == jobId)) = true := by simp [hid]
      rw [List.takeWhile_cons, hb, if_pos rfl, List.filter_cons]
      by_cases hp : e.prio ≤ p
      · rw [if_pos hp, if_pos (by simpa using hp), List.length_cons,
          scanAhead_takeWhile jobId p rest]
        omega
      · rw [if_neg hp, if_neg (by simpa using hp),
          scanAhead_takeWhile jobId p rest]
        omega

/-- C1, counterexample: a job cancelled while queued (terminal status
`cancelled` with its completion timestamp set) has its status overwritten
to `completed` by a later `complete_job` call — the code has no terminal
guard in `complete_job`. -/
theorem C1_counterexample :
    statusOf exQueueCancelled "j1" = some JobStatus.cancelled ∧
    statusOf (completeJob exQueueCancelled "j1" "Job completed" 2) "j1" =
      some JobStatus.completed ∧
    JobStatus.completed ≠ JobStatus.cancelled := by
  refine ⟨?_, ?_, by decide⟩ <;>
    simp [exQueueCancelled, emptyQueue, addJob, cancelJob, completeJob,
      statusOf, dictSet, heappush, siftdownLoop, isTerminal, List.lookup]

/-- C1, amended: only `cancel_job` is guarded — on a job whose status is
terminal it returns failure and leaves the state unchanged; but
`complete_job` and `fail_job` are unguarded and overwrite any existing
job's status (and completion timestamp), terminal or not. -/
theorem C1_amended (s : ProcessingQueue) (jobId msg err : String)
    (now : Nat) (job : ProcessingJob)
    (hlook : s.jobs.lookup jobId = some job) :
    (isTerminal job.status = true → cancelJob s jobId now = (false, s)) ∧
    statusOf (completeJob s jobId msg now) jobId = some .completed ∧
    (getJob (completeJob s jobId msg now) jobId).map (fun j2 => j2.completedAt)
      = some (some now) ∧
    statusOf (failJob s jobId err now) jobId = some .failed := by
  refine ⟨?_, ?_, ?_, ?_⟩
  · intro hterm
    unfold cancelJob
    rw [hlook]
    dsimp only
    rw [if_pos hterm]
  · unfold completeJob statusOf
    rw [hlook]
    dsimp only
    rw [lookup_dictSet_self]
    rfl
  · unfold completeJob getJob
    rw [hlook]
    dsimp only
    rw [lookup_dictSet_self]
    rfl
  · unfold failJob statusOf
    rw [hlook]
    dsimp only
    rw [lookup_dictSet_self]
    rfl

theorem C1_amended_witness :
    cancelJob exQueueCancelled "j1" 7 = (false, exQueueCancelled) ∧
    statusOf (completeJob exQueueCancelled "j1" "done" 9) "j1" =
      some JobStatus.completed := by
  have hlook : exQueueCancelled.jobs.lookup "j1" =
      some { id := "j1",
             priority := .normal,
             status := .cancelled,
             createdAt := 0,
             completedAt := some 1,
             message := "Job cancelled by user" } := by
    simp [exQueueCancelled, emptyQueue, addJob, cancelJob, statusOf,
      dictSet, heappush, siftdownLoop, isTerminal, List.lookup]
  exact ⟨(C1_amended exQueueCancelled "j1" "done" "e" 7 _ hlook).1 rfl,
    (C1_amended exQueueCancelled "j1" "done" "e" 9 _ hlook).2.1⟩

/-- C2: after any sequence of `add_job` calls with distinct identifiers
(and no cancellations) on a fresh queue, the jobs returned by successive
`get_next_job` calls are in non-decreasing priority-value order, ties in
non-decreasing enqueue-timestamp order (FIFO within a priority tier). -/
theorem C2_priority_fifo (w q : Nat) (adds : List (String × JobPriority × Nat))
    (now k : Nat) (hnodup : (adds.map (fun t => t.1)).Nodup)
    (hcap : adds.length ≤ q) :
    List.Pairwise (fun a b => a.priority.val < b.priority.val ∨
      (a.priority.val = b.priority.val ∧ a.createdAt ≤ b.createdAt))
      (drainJobs now k (addAll (emptyQueue w q) adds)) := by
  have hinv0 : queueInv (emptyQueue w q) := by
    refine ⟨?_, ?_, ?_⟩
    · intro i h1 h2
      simp [emptyQueue] at h2
    · simp [emptyQueue]
    · intro e he
      simp [emptyQueue] at he
  have hinv := addAll_queueInv adds (emptyQueue w q) hinv0
    (fun t _ => rfl) hnodup (by simpa [emptyQueue] using hcap)
  exact (drainJobs_spec now k _ hinv).2

theorem C2_witness :
    (([("j1", JobPriority.normal, 0),
       ("j2", JobPriority.high, 1)].map (fun t => t.1)).Nodup) ∧
    List.Pairwise (fun a b => a.priority.val < b.priority.val ∨
      (a.priority.val = b.priority.val ∧ a.createdAt ≤ b.createdAt))
      (drainJobs 5 2 (addAll (emptyQueue 2 10)
        [("j1", JobPriority.normal, 0), ("j2", JobPriority.high, 1)])) :=
  ⟨by decide, C2_priority_fifo 2 10
    [("j1", JobPriority.normal, 0), ("j2", JobPriority.high, 1)] 5 2
    (by decide) (by decide)⟩

/-- C3: a job cancelled while queued is never returned by any number of
subsequent `_get_next_job` calls; on a queue whose entries are all
cancelled, `_get_next_job` reports empty; and every returned job is marked
`processing` with its start timestamp set (also in the stored job map). -/
theorem C3_cancel_excluded (s : ProcessingQueue) (jobId : String)
    (now k : Nat) (j : ProcessingJob) (s2 : ProcessingQueue)
    (hkeys : ∀ p ∈ s.jobs, p.2.id = p.1) :
    (statusOf s jobId = some .cancelled →
      ∀ j2 ∈ drainJobs now k s, j2.id ≠ jobId) ∧
    ((∀ e ∈ s.queue, statusOf s e.id = some .cancelled) →
      (getNextJob s now).1 = none) ∧
    (getNextJob s now = (some j, s2) →
      j.status = .processing ∧ j.startedAt = some now ∧
      statusOf s2 j.id = some .processing) := by
  refine ⟨fun hc => drainJobs_cancelled_aux now k s jobId hkeys hc,
    fun hall => getNextJobAux_all_cancelled now _ s hall, fun hg => ?_⟩
  obtain ⟨h1, h2, _⟩ := getNextJob_some_spec hg
  exact ⟨h1, h2, (getNextJob_id_spec hkeys hg).2⟩

theorem C3_witness :
    (∀ p ∈ exQueueCancelled.jobs, p.2.id = p.1) ∧
    (getNextJob exQueueCancelled 7).1 = none := by
  have hkeys : ∀ p ∈ exQueueCancelled.jobs, p.2.id = p.1 := by
    simp [exQueueCancelled, emptyQueue, addJob, cancelJob, dictSet,
      heappush, siftdownLoop, isTerminal, List.lookup]
  refine ⟨hkeys, (C3_cancel_excluded exQueueCancelled "j1" 7 1 default
    exQueueCancelled hkeys).2.1 ?_⟩
  intro e he
  simp [exQueueCancelled, emptyQueue, addJob, cancelJob, dictSet,
    heappush, siftdownLoop, isTerminal, List.lookup] at he
  simp [he, exQueueCancelled, emptyQueue, addJob, cancelJob, statusOf,
    dictSet, heappush, siftdownLoop, isTerminal, List.lookup]

/-- C4: `add_job` fails with the capacity error when the pending count is
at or above `max_queue_size` and with the duplicate error when the id is
known, leaving the state unchanged either way; on success the job is
recorded `queued`, pushed, and returned.  With `max_queue_size = 2` the
third of three adds fails while the first two remain queued. -/
theorem C4_admission (s : ProcessingQueue) (jobId : String)
    (p : JobPriority) (md : List (String × String)) (now : Nat) :
    (s.maxQueueSize ≤ s.queue.length →
      addJob s jobId p md now = (.error .queueFull, s)) ∧
    (s.queue.length < s.maxQueueSize → (s.jobs.lookup jobId).isSome →
      addJob s jobId p md now = (.error .duplicateJob, s)) ∧
    (s.queue.length < s.maxQueueSize → s.jobs.lookup jobId = none →
      addJob s jobId p md now =
        (.ok { id := jobId,
               priority := p,
               status := .queued,
               createdAt := now,
               metadata := md },
          { s with
            jobs := dictSet jobId
              { id := jobId,
                priority := p,
                status := .queued,
                createdAt := now,
                metadata := md } s.jobs,
            queue := heappush s.queue ⟨p.val, now, jobId⟩ }) ∧
      statusOf (addJob s jobId p md now).2 jobId = some .queued) ∧
    ((addJob exQueueC4 "j3" .normal [] 2).1 = .error .queueFull ∧
      statusOf exQueueC4 "j1" = some .queued ∧
      statusOf exQueueC4 "j2" = some .queued ∧
      exQueueC4.maxQueueSize = 2) := by
  refine ⟨?_, ?_, ?_, ?_⟩
  · intro hcap
    unfold addJob
    rw [if_pos hcap]
  · intro hcap hdup
    unfold addJob
    rw [if_neg (by omega), if_pos hdup]
  · intro hcap hfresh
    have hok := addJob_success p md now hcap hfresh
    refine ⟨hok, ?_⟩
    rw [hok]
    unfold statusOf
    dsimp only
    rw [lookup_dictSet_self]
    rfl
  · refine ⟨?_, ?_, ?_, ?_⟩ <;>
      simp [exQueueC4, emptyQueue, addJob, statusOf, dictSet, heappush,
        siftdownLoop, JobPriority.val, entryLT, List.lookup]

theorem C4_witness :
    (emptyQueue 2 0).maxQueueSize ≤ (emptyQueue 2 0).queue.length ∧
    addJob (emptyQueue 2 0) "x" .normal [] 0 =
      (.error .queueFull, emptyQueue 2 0) :=
  ⟨by decide,
    (C4_admission (emptyQueue 2 0) "x" .normal [] 0).1 (by decide)⟩

/-- C10: `cancel_job` leaves the heap untouched (lazy deletion);
`add_job` raises the capacity error exactly when the raw heap length —
which still counts cancelled-but-unpopped entries and no longer counts
dequeued ones — reaches `max_queue_size`; a successful `_get_next_job`
strictly shrinks the heap.  Concretely, with `max_queue_size = 1` and one
cancelled entry still heaped, a fresh `add_job` fails although no job is
genuinely queued. -/
theorem C10_capacity_raw_heap (s : ProcessingQueue) (jobId : String)
    (p : JobPriority) (md : List (String × String)) (now t : Nat)
    (j : ProcessingJob) (s2 : ProcessingQueue) :
    ((cancelJob s jobId t).2.queue = s.queue) ∧
    ((addJob s jobId p md now).1 = .error .queueFull ↔
      s.maxQueueSize ≤ s.queue.length) ∧
    (getNextJob s now = (some j, s2) → s2.queue.length < s.queue.length) ∧
    ((addJob exQueueC10 "j2" .normal [] 2).1 = .error .queueFull ∧
      (exQueueC10.jobs.filter (fun pr => pr.2.status == .queued)).length = 0 ∧
      exQueueC10.queue.length = 1 ∧ exQueueC10.maxQueueSize = 1) := by
  refine ⟨?_, ?_, fun hg => (getNextJob_some_spec hg).2.2.1, ?sc⟩
  · unfold cancelJob
    cases hl : s.jobs.lookup jobId with
    | none => rfl
    | some job =>
      dsimp only
      by_cases hterm : isTerminal job.status = true
      · simp only [if_pos hterm]
      · simp only [if_neg hterm]
  · unfold addJob
    by_cases hcap : s.maxQueueSize ≤ s.queue.length
    · rw [if_pos hcap]
      simpa using hcap
    · rw [if_neg hcap]
      constructor
      · intro hcon
        by_cases hdup : (s.jobs.lookup jobId).isSome
        · rw [if_pos hdup] at hcon
          exact absurd hcon (by simp)
        · rw [if_neg hdup] at hcon
          exact absurd hcon (by simp)
      · intro hc
        exact absurd hc hcap
  case sc =>
    refine ⟨?_, ?_, ?_, ?_⟩ <;>
      simp [exQueueC10, emptyQueue, addJob, cancelJob, statusOf, dictSet,
        heappush, siftdownLoop, JobPriority.val, entryLT, isTerminal,
        List.lookup]

theorem C10_witness :
    (getNextJob exQueueC4 5).2.queue.length < exQueueC4.queue.length :=
  (C10_capacity_raw_heap exQueueC4 "z" .normal [] 5 5
    ((getNextJob exQueueC4 5).1.getD default) (getNextJob exQueueC4 5).2).2.2.1
    (Prod.ext (by
      simp [exQueueC4, emptyQueue, addJob, statusOf, dictSet, heappush,
        siftdownLoop, JobPriority.val, entryLT, List.lookup, getNextJob,
        getNextJobAux, heappop, siftup, siftupLoop, List.dropLast,
        List.getLast]) rfl)

/-- C5, counterexample: on the three-job queue `exQueueC5` the code's
`estimate_wait_time` for `jA` scans the heap's internal list order
`[jB, jA, jC]` and counts only `jB` (returning 30.0 with two workers),
while the spec's reading — jobs of priority ≤ NORMAL ahead of `jA` in
dequeue order `jB, jC, jA` — counts `jB` and `jC` (giving 60.0). -/
theorem C5_counterexample :
    estimateWaitTime exQueueC5 "jA" = some 30 ∧
    specEstimateWait exQueueC5 "jA" = some 60 ∧
    estimateWaitTime exQueueC5 "jA" ≠ specEstimateWait exQueueC5 "jA" := by
  have h1 : estimateWaitTime exQueueC5 "jA" = some 30 := by
    simp [exQueueC5, emptyQueue, addJob, dictSet, heappush, siftdownLoop,
      JobPriority.val, entryLT, estimateWaitTime, scanAhead, List.lookup]
    norm_num
  have h2 : specEstimateWait exQueueC5 "jA" = some 60 := by
    simp [exQueueC5, emptyQueue, addJob, dictSet, heappush, siftdownLoop,
      JobPriority.val, entryLT, specEstimateWait, specJobsAhead, statusOf,
      List.lookup]
  refine ⟨h1, h2, ?_⟩
  rw [h1, h2]
  simp

/-- C5, amended: for a still-queued job, `estimate_wait_time` returns
`(K / W) * 60.0` where `K` counts the entries with priority value ≤ the
job's that precede the job's entry in the heap's internal list order
(cancelled entries included), and the result is non-negative; for an
absent or non-queued job it returns `None`. -/
theorem C5_amended (s : ProcessingQueue) (jobId : String) :
    (∀ w, estimateWaitTime s jobId = some w →
      0 ≤ w ∧ ∃ job, s.jobs.lookup jobId = some job ∧ job.status = .queued ∧
        w = (((s.queue.takeWhile (fun e => !(e.id == jobId))).filter
            (fun e => decide (e.prio ≤ job.priority.val))).length : ℚ) /
          (s.maxWorkers : ℚ) * 60) ∧
    (∀ job, s.jobs.lookup jobId = some job → job.status ≠ .queued →
      estimateWaitTime s jobId = none) ∧
    (s.jobs.lookup jobId = none → estimateWaitTime s jobId = none) := by
  refine ⟨?_, ?_, ?_⟩
  · intro w hw
    unfold estimateWaitTime at hw
    cases hl : s.jobs.lookup jobId with
    | none =>
      rw [hl] at hw
      simp at hw
    | some job =>
      rw [hl] at hw
      dsimp only at hw
      by_cases hst : job.status ≠ JobStatus.queued
      · rw [if_pos hst] at hw
        exact absurd hw (by simp)
      · rw [if_neg hst] at hw
        rw [Option.some_inj] at hw
        push_neg at hst
        refine ⟨?_, job, rfl, hst, ?_⟩
        · rw [← hw]
          positivity
        · rw [← hw, scanAhead_takeWhile]
  · intro job hl hst
    unfold estimateWaitTime
    rw [hl]
    dsimp only
    rw [if_pos hst]
  · intro hl
    unfold estimateWaitTime
    rw [hl]

theorem C5_amended_witness :
    estimateWaitTime exQueueC5 "jA" = some 30 ∧ (0 : ℚ) ≤ 30 := by
  have h1 : estimateWaitTime exQueueC5 "jA" = some 30 := by
    simp [exQueueC5, emptyQueue, addJob, dictSet, heappush, siftdownLoop,
      JobPriority.val, entryLT, estimateWaitTime, scanAhead, List.lookup]
    norm_num
  exact ⟨h1, ((C5_amended exQueueC5 "jA").1 30 h1).1⟩

/-- C6, counterexample: a pool explicitly constructed with 20 workers
accepts `scale_workers(20)` as a silent no-op — the early equality return
fires before the range check, so no range error is raised although 20 lies
outside [1, 16]. -/
theorem C6_counterexample :
    (WorkerManager.init (some 20) 4 16).maxWorkers = 20 ∧
    16 < 20 ∧
    scaleWorkers (WorkerManager.init (some 20) 4 16) 20 =
      (none, WorkerManager.init (some 20) 4 16) := by
  refine ⟨rfl, by norm_num, rfl⟩

/-- C6, amended: `scale_workers(n)` raises the range error and leaves the
pool size unchanged for every `n` outside `[1, 16]` except when `n` equals
the current size (then it is a silent no-op, which also leaves the size
unchanged); for every `n` inside `[1, 16]` the pool size afterwards equals
`n`; and whenever the error is raised the state is unchanged. -/
theorem C6_amended (m : WorkerManager) (n : Nat) :
    ((n < 1 ∨ 16 < n) → n ≠ m.maxWorkers →
      scaleWorkers m n = (some .invalidRange, m)) ∧
    (1 ≤ n → n ≤ 16 → (scaleWorkers m n).2.maxWorkers = n) ∧
    (∀ err, (scaleWorkers m n).1 = some err → (scaleWorkers m n).2 = m) := by
  refine ⟨?_, ?_, ?_⟩
  · intro hr hne
    unfold scaleWorkers
    rw [if_neg hne, if_pos hr]
  · intro h1 h16
    unfold scaleWorkers
    by_cases he : n = m.maxWorkers
    · rw [if_pos he]
      exact he.symm
    · rw [if_neg he, if_neg (by omega)]
  · intro err herr
    unfold scaleWorkers at herr ⊢
    by_cases he : n = m.maxWorkers
    · rw [if_pos he]
    · rw [if_neg he] at herr ⊢
      by_cases hr : n < 1 ∨ 16 < n
      · rw [if_pos hr]
      · rw [if_neg hr] at herr
        simp at herr

theorem C6_amended_witness :
    scaleWorkers (WorkerManager.init (some 3) 4 16) 20 =
      (some .invalidRange, WorkerManager.init (some 3) 4 16) :=
  (C6_amended (WorkerManager.init (some 3) 4 16) 20).1
    (by norm_num) (by decide)

/-- C9: with no explicit worker count the pool starts at
`_calculate_optimal_workers`, and for `cpu_count ≥ 1` the code's
`min(max(1, cpu-1), max(1, floor(mem/2)), 8)` equals the spec's
`max(1, min(cpu-1, floor(mem/2), 8))`. -/
theorem C9_sizing_policy (cpuCount : Nat) (memoryGb : ℚ)
    (hcpu : 1 ≤ cpuCount) :
    (WorkerManager.init none cpuCount memoryGb).maxWorkers =
      calculateOptimalWorkers cpuCount memoryGb ∧
    calculateOptimalWorkers cpuCount memoryGb =
      max 1 (min (min (cpuCount - 1) (Int.toNat ⌊memoryGb / 2⌋)) 8) := by
  refine ⟨rfl, ?_⟩
  unfold calculateOptimalWorkers
  generalize Int.toNat ⌊memoryGb / 2⌋ = b
  omega

theorem C9_witness :
    1 ≤ 4 ∧ calculateOptimalWorkers 4 (16 : ℚ) =
      max 1 (min (min (4 - 1) (Int.toNat ⌊(16 : ℚ) / 2⌋)) 8) :=
  ⟨by norm_num, (C9_sizing_policy 4 16 (by norm_num)).2⟩

/-- C7: the rate limiter is a fixed-window counter — the first check in a
window stores count 1 with TTL = window and allows; after `k ≥ 1` checks
the stored count is `min k limit` with the TTL untouched; the next check
allows exactly while the stored count is below the limit; and on a store
error the check fails open. -/
theorem C7_fixed_window (limit window : Nat) (hlim : 1 ≤ limit) :
    checkRateLimit false none limit window = (true, some (1, window)) ∧
    (∀ k, 1 ≤ k → rlRun limit window k = some (min k limit, window)) ∧
    (∀ k, 1 ≤ k →
      ((checkRateLimit false (rlRun limit window k) limit window).1 = true ↔
        k < limit)) ∧
    (∀ st, checkRateLimit true st limit window = (true, st)) := by
  have hrun : ∀ k, 1 ≤ k →
      rlRun limit window k = some (min k limit, window) := by
    intro k
    induction k with
    | zero => intro h; omega
    | succ k ih =>
      intro _
      rcases Nat.eq_zero_or_pos k with hk0 | hkpos
      · subst hk0
        show (checkRateLimit false (rlRun limit window 0) limit window).2 = _
        unfold rlRun checkRateLimit
        rw [if_neg (by simp)]
        dsimp only
        rw [Option.some_inj, Prod.mk.injEq]
        exact ⟨by omega, rfl⟩
      · show (checkRateLimit false (rlRun limit window k) limit window).2 = _
        rw [ih hkpos]
        unfold checkRateLimit
        rw [if_neg (by simp)]
        dsimp only
        by_cases hle : limit ≤ min k limit
        · rw [if_pos hle]
          dsimp only
          rw [Option.some_inj, Prod.mk.injEq]
          exact ⟨by omega, rfl⟩
        · rw [if_neg hle]
          dsimp only
          rw [Option.some_inj, Prod.mk.injEq]
          exact ⟨by omega, rfl⟩
  refine ⟨rfl, hrun, ?_, ?_⟩
  · intro k hk
    rw [hrun k hk]
    unfold checkRateLimit
    rw [if_neg (by simp)]
    dsimp only
    by_cases hle : limit ≤ min k limit
    · rw [if_pos hle]
      simp only [Prod.fst]
      constructor
      · intro hcon
        exact absurd hcon (by simp)
      · intro hc
        omega
    · rw [if_neg hle]
      simp only [Prod.fst]
      constructor
      · intro _
        omega
      · intro _
        trivial
  · intro st
    unfold checkRateLimit
    rw [if_pos rfl]

theorem C7_witness : 1 ≤ 3 ∧ rlRun 3 60 2 = some (2, 60) := by
  refine ⟨by norm_num, ?_⟩
  have h := (C7_fixed_window 3 60 (by norm_num)).2.1 2 (by norm_num)
  simpa using h

theorem filter_self_idem {α : Type} (p : α → Bool) :
    ∀ l : List α, (l.filter p).filter p = l.filter p
  | [] => rfl
  | a :: t => by
    rw [List.filter_cons]
    by_cases hp : p a = true
    · rw [if_pos hp, List.filter_cons, if_pos hp, filter_self_idem p t]
    · rw [if_neg hp, filter_self_idem p t]

theorem lookup_filter_key {β : Type} (k : String) :
    ∀ l : List (String × β), ((l.filter (fun p => p.1 ≠ k)).lookup k) = none
  | [] => rfl
  | (a, b) :: t => by
    rw [List.filter_cons]
    by_cases hak : a = k
    · rw [if_neg (by simp [hak])]
      exact lookup_filter_key k t
    · rw [if_pos (by simp [hak])]
      simp only [List.lookup]
      have : (k == a) = false := by
        rw [beq_eq_false_iff_ne]
        exact fun he => hak he.symm
      rw [this]
      exact lookup_filter_key k t

theorem lookup_filter_other {β : Type} (k j : String) (hne : j ≠ k) :
    ∀ l : List (String × β),
      ((l.filter (fun p => p.1 ≠ k)).lookup j) = l.lookup j
  | [] => rfl
  | (a, b) :: t => by
    rw [List.filter_cons]
    by_cases hak : a = k
    · rw [if_neg (by simp [hak])]
      have hja : (j == a) = false := by
        rw [beq_eq_false_iff_ne]
        rw [hak]
        exact hne
      simp only [List.lookup, hja]
      exact lookup_filter_other k j hne t
    · rw [if_pos (by simp [hak])]
      simp only [List.lookup]
      cases hja : (j == a)
      · exact lookup_filter_other k j hne t
      · rfl

theorem removeSubscription_lookup_other (sid : String)
    (subs : List (String × List String)) (jobId j : String)
    (hne : j ≠ jobId) :
    (removeSubscription sid subs jobId).lookup j = subs.lookup j := by
  unfold removeSubscription
  cases h : subs.lookup jobId with
  | none => rfl
  | some ss =>
    dsimp only
    by_cases hss : setDiscard sid ss = []
    · rw [if_pos hss]
      exact lookup_filter_other jobId j hne subs
    · rw [if_neg hss]
      exact lookup_map_replace_ne jobId j _ (fun he => hne he.symm) subs

theorem removeSubscription_lookup_self (sid : String)
    (subs : List (String × List String)) (jobId : String) :
    ∀ ss, (removeSubscription sid subs jobId).lookup jobId = some ss →
      sid ∉ ss := by
  unfold removeSubscription
  cases h : subs.lookup jobId with
  | none =>
    intro ss hss
    rw [h] at hss
    exact Option.noConfusion hss
  | some ss0 =>
    dsimp only
    intro ss hss
    by_cases hempty : setDiscard sid ss0 = []
    · rw [if_pos hempty, lookup_filter_key] at hss
      exact Option.noConfusion hss
    · rw [if_neg hempty, lookup_map_replace, h] at hss
      have : ss = setDiscard sid ss0 := by
        simpa using hss.symm
      rw [this]
      unfold setDiscard
      intro hmem
      have := List.mem_filter.mp hmem
      simp at this

theorem removeSubscription_nonempty (sid : String)
    (subs : List (String × List String)) (jobId : String)
    (h : ∀ p ∈ subs, p.2 ≠ []) :
    ∀ p ∈ removeSubscription sid subs jobId, p.2 ≠ [] := by
  unfold removeSubscription
  cases hl : subs.lookup jobId with
  | none => exact h
  | some ss0 =>
    dsimp only
    by_cases hempty : setDiscard sid ss0 = []
    · rw [if_pos hempty]
      intro p hp
      exact h p (List.mem_filter.mp hp).1
    · rw [if_neg hempty]
      intro p hp
      obtain ⟨q, hq, hqe⟩ := List.mem_map.mp hp
      by_cases hqk : q.1 = jobId
      · rw [if_pos hqk] at hqe
        rw [← hqe]
        exact hempty
      · rw [if_neg hqk] at hqe
        rw [← hqe]
        exact h q hq

theorem foldl_removeSubscription_none (sid : String) :
    ∀ (jids : List String) (subs : List (String × List String)),
      (∀ j ss, subs.lookup j = some ss → sid ∈ ss → j ∈ jids) →
      ∀ j ss, (jids.foldl (removeSubscription sid) subs).lookup j = some ss →
        sid ∉ ss := by
  intro jids
  induction jids with
  | nil =>
    intro subs hsub j ss hl hmem
    exact absurd (hsub j ss hl hmem) (List.not_mem_nil j)
  | cons j0 rest ih =>
    intro subs hsub j ss hl
    rw [List.foldl_cons] at hl
    refine ih (removeSubscription sid subs j0) ?_ j ss hl
    intro j2 ss2 hl2 hmem2
    by_cases hj2 : j2 = j0
    · subst hj2
      exact absurd hmem2 (removeSubscription_lookup_self sid subs j2 ss2 hl2)
    · rw [removeSubscription_lookup_other sid subs j0 j2 hj2] at hl2
      have := hsub j2 ss2 hl2 hmem2
      rcases List.mem_cons.mp this with hc | hc
      · exact absurd hc hj2
      · exact hc

theorem foldl_removeSubscription_nonempty (sid : String) :
    ∀ (jids : List String) (subs : List (String × List String)),
      (∀ p ∈ subs, p.2 ≠ []) →
      ∀ p ∈ jids.foldl (removeSubscription sid) subs, p.2 ≠ [] := by
  intro jids
  induction jids with
  | nil => intro subs h; exact h
  | cons j0 rest ih =>
    intro subs h
    rw [List.foldl_cons]
    exact ih _ (removeSubscription_nonempty sid subs j0 h)

theorem notifyJobUpdate_delivers_active (st : ConnectionManager)
    (jobId : String) :
    ∀ s2 ∈ (notifyJobUpdate st jobId).1, s2 ∈ st.activeConnections := by
  unfold notifyJobUpdate
  cases h : st.jobSubscriptions.lookup jobId with
  | none =>
    intro s2 h2
    simp at h2
  | some subs =>
    dsimp only
    intro s2 h2
    have := List.mem_filter.mp h2
    unfold sendToSession at this
    simpa using this.2

/-- C8: after `disconnect(sid)` the session is gone from the active
connections; it is absent from every job's subscriber set; no
`notify_job_update` on the resulting state delivers to it; no empty
subscriber set is left behind; and a second `disconnect` of the same
session leaves the state unchanged. -/
theorem C8_disconnect (st : ConnectionManager) (sid : String)
    (hinv : connInvariant st) :
    sid ∉ (disconnect st sid).activeConnections ∧
    (∀ jobId, sid ∉ subsOfJob (disconnect st sid) jobId) ∧
    (∀ jobId s2, s2 ∈ (notifyJobUpdate (disconnect st sid) jobId).1 →
      s2 ≠ sid) ∧
    (∀ p ∈ (disconnect st sid).jobSubscriptions, p.2 ≠ []) ∧
    disconnect (disconnect st sid) sid = disconnect st sid := by
  have hactive : sid ∉ (disconnect st sid).activeConnections := by
    unfold disconnect
    dsimp only
    intro hmem
    have := List.mem_filter.mp hmem
    simp at this
  refine ⟨hactive, ?_, ?_, ?_, ?_⟩
  · intro jobId
    unfold subsOfJob disconnect
    dsimp only
    cases hsess : st.sessionJobs.lookup sid with
    | none =>
      cases hlj : st.jobSubscriptions.lookup jobId with
      | none => simp
      | some ss =>
        dsimp only [Option.getD]
        intro hmem
        have hjobs := (hinv (jobId, ss) (lookup_mem hlj)).2 sid hmem
        unfold jobsOfSession at hjobs
        rw [hsess] at hjobs
        simp at hjobs
    | some jids =>
      have hstart : ∀ j ss, st.jobSubscriptions.lookup j = some ss →
          sid ∈ ss → j ∈ jids := by
        intro j ss hl hmem
        have hjobs := (hinv (j, ss) (lookup_mem hl)).2 sid hmem
        unfold jobsOfSession at hjobs
        rw [hsess] at hjobs
        simpa using hjobs
      cases hlj : (jids.foldl (removeSubscription sid)
          st.jobSubscriptions).lookup jobId with
      | none => simp [hlj]
      | some ss =>
        exact foldl_removeSubscription_none sid jids st.jobSubscriptions
          hstart jobId ss hlj
  · intro jobId s2 hmem
    have := notifyJobUpdate_delivers_active (disconnect st sid) jobId s2 hmem
    intro he
    rw [he] at this
    exact hactive this
  · unfold disconnect
    dsimp only
    cases hsess : st.sessionJobs.lookup sid with
    | none =>
      intro p hp
      exact (hinv p hp).1
    | some jids =>
      exact foldl_removeSubscription_nonempty sid jids st.jobSubscriptions
        (fun p hp => (hinv p hp).1)
  · show disconnect (disconnect st sid) sid = disconnect st sid
    unfold disconnect
    dsimp only
    rw [lookup_filter_key]
    rw [filter_self_idem, filter_self_idem, filter_self_idem]

theorem C8_witness :
    connInvariant exConn ∧
    (disconnect exConn "s1").jobSubscriptions = [] ∧
    (notifyJobUpdate (disconnect exConn "s1") "j3").1 = [] ∧
    disconnect (disconnect exConn "s1") "s1" = disconnect exConn "s1" := by
  have hinv : connInvariant exConn := by decide
  exact ⟨hinv, by decide, by decide,
    (C8_disconnect exConn "s1" hinv).2.2.2.2⟩

end ThuWuanAo
